import Mathlib

/-!
Verification development for the cooperative task scheduler
(`packages/scheduler/dist/esnext/task-queue.js`).

The `Sched` namespace shallowly embeds a single `TaskQueue` at the level of
its three task lists (processing / pending / delayed), mirroring the source
statement by statement.  Ghost fields (`runTrace`, `requestCalls`,
`cancelCalls`, `outstanding`, `resolvedYields`, `macroPokes`) record the
externally observable interactions (which tasks ran and in which order, host
flush requests, promise resolutions, poke tasks queued on the macrotask
queue); they are written only at the exact places where the source performs
the corresponding call.

The `Sched.Ptr` namespace additionally embeds the intrusive doubly-linked
list layer (raw `prev`/`next` pointers plus cached head/tail/size) for the
claims about pointer-level list-shape invariants.

The `Task` class itself lives in `task.js`, which is not part of the sources
under review; the handful of `Task` behaviours the queue depends on
(`run` unlinking the task, `reset`, `reuse`) are modelled from the spec and
marked as such in their doc comments.
-/

set_option autoImplicit false

namespace Sched

/-- What a task's callback does when invoked: return synchronously, or return
a promise (the task then stays in status `running` until the promise
settles). -/
inductive RunKind where
  | sync
  | async
deriving DecidableEq

/-- A schedulable task, as observed by `task-queue.js`: identity, timing
metadata and the option flags.  `kind` abstracts the callback's behaviour. -/
structure Task where
  id : Nat
  createdTime : Nat
  queueTime : Nat
  preempt : Bool
  persistent : Bool
  reusable : Bool
  suspend : Bool
  kind : RunKind
deriving DecidableEq

/-- The (merged) `QueueTaskOptions` record. -/
structure Options where
  delay : Nat
  preempt : Bool
  persistent : Bool
  reusable : Bool
  suspend : Bool
deriving DecidableEq

/-- A task queued on the macrotask queue by `requestFlushClamped` of a
microtask-priority queue (ghost record: id, the options it was queued with,
and whether it has since been canceled). -/
structure Poke where
  id : Nat
  opts : Options
  canceled : Bool
deriving DecidableEq

/-- The state of one `TaskQueue`.  The three intrusive linked lists are
embedded as Lean lists in chain order; the cached sizes of the source are the
list lengths.  All remaining fields are the scalar fields of the source plus
the ghost observation fields described in the file header. -/
structure QState where
  priority : Nat
  timeNow : Nat
  processing : List Task
  pending : List Task
  delayed : List Task
  suspenderTask : Option Task
  pendingAsyncCount : Nat
  flushRequested : Bool
  yieldPromise : Option Nat
  promiseFresh : Nat
  taskPool : List Task
  taskFresh : Nat
  lastRequest : Nat
  microPoke : Option Nat
  pokeFresh : Nat
  macroPokes : List Poke
  runTrace : List Nat
  resolvedYields : List Nat
  requestCalls : Nat
  cancelCalls : Nat
  outstanding : Nat
deriving DecidableEq

/-- `isEmpty` (source lines 29-31): all three sizes are zero. -/
def isEmpty (s : QState) : Bool :=
  s.processing.length == 0 && s.pending.length == 0 && s.delayed.length == 0

/-- The `while (cur !== void 0) { if (!cur.persistent) return false; ... }`
loops of `hasNoMoreFiniteWork`, one list at a time. -/
def allPersistent : List Task → Bool
  | [] => true
  | t :: rest => if t.persistent then allPersistent rest else false

/-- `hasNoMoreFiniteWork` (source lines 40-66). -/
def hasNoMoreFiniteWork (s : QState) : Bool :=
  if s.pendingAsyncCount > 0 then false
  else allPersistent s.processing && allPersistent s.pending && allPersistent s.delayed

/-- The spec's own wording of the yield-quiescence condition ("no more finite
work"): `pendingAsyncCount === 0` and every task currently in processing,
pending, and delayed is persistent.  Used to compare the source's
`hasNoMoreFiniteWork` against the spec. -/
def specNoFiniteWork (s : QState) : Prop :=
  s.pendingAsyncCount = 0 ∧
    ∀ t, t ∈ s.processing ++ s.pending ++ s.delayed → t.persistent = true

/-- Cancel the tracked `microTaskRequestFlushTask` if there is one
(the `if (this.microTaskRequestFlushTask !== null) { ...cancel(); ... = null }`
block shared by `flush`, `cancel` and `requestFlush`).  Canceling marks the
corresponding macrotask-queue poke record canceled. -/
def cancelMicroPoke (s : QState) : QState :=
  match s.microPoke with
  | none => s
  | some i =>
      { s with
        macroPokes :=
          s.macroPokes.map (fun p => if p.id = i then { p with canceled := true } else p),
        microPoke := none }

/-- `requestFlush` (source lines 491-503). -/
def requestFlush (s : QState) : QState :=
  let s := cancelMicroPoke s
  if !s.flushRequested then
    { s with
      flushRequested := true,
      lastRequest := s.timeNow,
      requestCalls := s.requestCalls + 1,
      outstanding := s.outstanding + 1 }
  else s

/-- `microTaskRequestFlushTaskOptions` (source lines 517-523). -/
def microTaskRequestFlushTaskOptions : Options :=
  { delay := 0
    preempt := true
    persistent := false
    reusable := true
    suspend := false }

/-- The callback of the clamp poke task is the queue's own (bound)
`requestFlush` (source line 508 passes `this.requestFlush`). -/
def pokeCallback : QState → QState := requestFlush

/-- `requestFlushClamped` (source lines 504-515): on the microtask tier,
queue a poke task on the macrotask queue with
`microTaskRequestFlushTaskOptions` and track it in
`microTaskRequestFlushTask`; otherwise just `requestFlush`. -/
def requestFlushClamped (s : QState) : QState :=
  if s.priority ≤ 0 then
    { s with
      macroPokes := s.macroPokes ++ [⟨s.pokeFresh, microTaskRequestFlushTaskOptions, false⟩],
      microPoke := some s.pokeFresh,
      pokeFresh := s.pokeFresh + 1 }
  else requestFlush s

/-- `cancel` (source lines 133-144). -/
def cancel (s : QState) : QState :=
  let s := cancelMicroPoke s
  if s.flushRequested then
    { s with
      cancelCalls := s.cancelCalls + 1,
      flushRequested := false,
      outstanding := s.outstanding - 1 }
  else s

/-- The shared yield-resolution block of `flush` (lines 113-118) and
`completeAsyncTask` (lines 354-359): if a yield promise exists and
`hasNoMoreFiniteWork`, resolve it. -/
def checkYield (s : QState) : QState :=
  match s.yieldPromise with
  | some p =>
      if hasNoMoreFiniteWork s then
        { s with yieldPromise := none, resolvedYields := s.resolvedYields ++ [p] }
      else s
  | none => s

/-- Result of a `yield()` call: return immediately (queue empty), or await
the promise with the given id. -/
inductive YieldResult where
  | immediate
  | wait (p : Nat)
deriving DecidableEq

/-- `yield` (source lines 154-167): empty queue returns immediately;
otherwise create the exposed promise if none exists and await it. -/
def yield (s : QState) : QState × YieldResult :=
  if isEmpty s then (s, YieldResult.immediate)
  else
    match s.yieldPromise with
    | some p => (s, YieldResult.wait p)
    | none =>
        ({ s with yieldPromise := some s.promiseFresh, promiseFresh := s.promiseFresh + 1 },
         YieldResult.wait s.promiseFresh)

/-- Modelled from the spec: `Task.reset(time)` (in `task.js`, not among the
sources) recomputes `queueTime` from the current time plus the original
delay, returning the persistent task to `pending` status. -/
def resetTask (now : Nat) (t : Task) : Task :=
  let delay := t.queueTime - t.createdTime
  { t with createdTime := now, queueTime := now + delay }

/-- `resetPersistentTask` (source lines 313-337): reset the task, then
re-link it at the tail of pending (no delay) or delayed (with delay). -/
def resetPersistentTask (s : QState) (t : Task) : QState :=
  let t := resetTask s.timeNow t
  if t.createdTime = t.queueTime then { s with pending := s.pending ++ [t] }
  else { s with delayed := s.delayed ++ [t] }

/-- The `while (next !== void 0 && next.queueTime <= time)` scan of
`moveDelayedToProcessing`, splitting off the contiguous due prefix. -/
def dueSplit (time : Nat) : List Task → List Task × List Task
  | [] => ([], [])
  | t :: rest =>
      if t.queueTime ≤ time then
        let p := dueSplit time rest
        (t :: p.1, p.2)
      else ([], t :: rest)

/-- `movePendingToProcessing` (source lines 441-458): whole-list splice of
pending onto the tail of processing. -/
def movePendingToProcessing (s : QState) : QState :=
  { s with processing := s.processing ++ s.pending, pending := [] }

/-- `moveDelayedToProcessing` (source lines 459-490): if the delayed head is
due, append the contiguous due prefix of delayed to processing.  The source
is only invoked with a nonempty delayed list; an empty list is a no-op. -/
def moveDelayedToProcessing (s : QState) : QState :=
  match s.delayed with
  | [] => s
  | dh :: rest =>
      if dh.queueTime ≤ s.timeNow then
        let p := dueSplit s.timeNow (dh :: rest)
        { s with processing := s.processing ++ p.1, delayed := p.2 }
      else s

/-- The `if (this.pendingSize > 0) ... if (this.delayedSize > 0) ...`
migration pair that `flush` performs before and after draining. -/
def migrate (s : QState) : QState :=
  let s := if s.pending.length > 0 then movePendingToProcessing s else s
  if s.delayed.length > 0 then moveDelayedToProcessing s else s

/-- The `while (this.processingSize > 0)` drain loop of `flush`
(source lines 84-100), one recursive step per iteration.  Each step models
`cur.run()` followed by the source's status check.

Modelled from the spec (the `Task.run` part, `task.js` not among the
sources): `run` unlinks the task from the processing list, transitions it to
`running` and invokes the callback; a synchronous result completes the task
(a persistent task is instead re-linked via `resetPersistentTask`, a
completed reusable one is returned to the pool), an asynchronous result
leaves it `running`.  The returned flag is `true` when the loop ended with
the early `return` of the suspend branch (lines 90-95). -/
def drain : QState → List Task → QState × Bool
  | s, [] => (s, false)
  | s, cur :: rest =>
      let s := { s with processing := rest, runTrace := s.runTrace ++ [cur.id] }
      match cur.kind with
      | RunKind.sync =>
          let s :=
            if cur.persistent then resetPersistentTask s cur
            else if cur.reusable then { s with taskPool := s.taskPool ++ [cur] }
            else s
          drain s rest
      | RunKind.async =>
          if cur.suspend then (requestFlushClamped { s with suspenderTask := some cur }, true)
          else drain { s with pendingAsyncCount := s.pendingAsyncCount + 1 } rest

/-- Lines 69-75 of `flush`: cancel the clamp poke, reset `flushRequested`.
The host invocation consumes the one outstanding flush request. -/
def flushEntry (s : QState) : QState :=
  let s := cancelMicroPoke s
  { s with flushRequested := false, outstanding := s.outstanding - 1 }

/-- Lines 101-118 of `flush`: post-drain migrations, flush re-request, and
the yield-resolution check. -/
def finishFlush (s : QState) : QState :=
  let s := migrate s
  let s :=
    if s.processing.length > 0 then requestFlush s
    else if s.delayed.length > 0 || s.pendingAsyncCount > 0 then requestFlushClamped s
    else s
  checkYield s

/-- `flush` (source lines 67-127). -/
def flush (s : QState) : QState :=
  let s := flushEntry s
  match s.suspenderTask with
  | none =>
      let s := migrate s
      let r := drain s s.processing
      if r.2 then r.1 else finishFlush r.1
  | some _ => requestFlushClamped s

/-- A freshly constructed `Task` (`new Task(this, time, time + delay, ...)`). -/
def mkNewTask (id time : Nat) (opts : Options) (kind : RunKind) : Task :=
  { id := id
    createdTime := time
    queueTime := time + opts.delay
    preempt := opts.preempt
    persistent := opts.persistent
    reusable := opts.reusable
    suspend := opts.suspend
    kind := kind }

/-- Modelled from the spec: `Task.reuse` (in `task.js`, not among the
sources) reinitializes a pooled task's fields from the new arguments while
keeping the object's identity. -/
def reuseTask (t : Task) (time : Nat) (opts : Options) (kind : RunKind) : Task :=
  { t with
    createdTime := time
    queueTime := time + opts.delay
    preempt := opts.preempt
    persistent := opts.persistent
    suspend := opts.suspend
    kind := kind }

/-- `queueTask` (source lines 168-229), taking the already-merged options.
On a validation error the source throws before touching any state, which the
embedding renders by returning the state unchanged alongside the error. -/
def queueTask (s : QState) (opts : Options) (kind : RunKind) : QState × Except String Task :=
  if opts.preempt && decide (0 < opts.delay) then
    (s, Except.error ("Invalid arguments: preempt cannot be combined with a greater-than-zero delay"))
  else if opts.preempt && opts.persistent then
    (s, Except.error ("Invalid arguments: preempt cannot be combined with persistent"))
  else if opts.persistent && s.priority == 0 then
    (s, Except.error ("Invalid arguments: cannot queue persistent tasks on the micro task queue"))
  else
    let s := if s.processing.length = 0 then requestFlush s else s
    let time := s.timeNow
    let r :=
      if opts.reusable then
        match s.taskPool.getLast? with
        | some pooled => ({ s with taskPool := s.taskPool.dropLast }, reuseTask pooled time opts kind)
        | none => ({ s with taskFresh := s.taskFresh + 1 }, mkNewTask s.taskFresh time opts kind)
      else ({ s with taskFresh := s.taskFresh + 1 }, mkNewTask s.taskFresh time opts kind)
    let s := r.1
    let task := r.2
    if opts.preempt then ({ s with processing := s.processing ++ [task] }, Except.ok task)
    else if opts.delay = 0 then ({ s with pending := s.pending ++ [task] }, Except.ok task)
    else ({ s with delayed := s.delayed ++ [task] }, Except.ok task)

/-- `removeFromProcessing` (source lines 375-386) at the list level: unlink
the (first) node with the task's identity. -/
def removeFromProcessing (s : QState) (t : Task) : QState :=
  { s with processing := s.processing.eraseP (fun u => u.id == t.id) }

/-- `removeFromPending` (source lines 387-398) at the list level. -/
def removeFromPending (s : QState) (t : Task) : QState :=
  { s with pending := s.pending.eraseP (fun u => u.id == t.id) }

/-- `removeFromDelayed` (source lines 399-410) at the list level. -/
def removeFromDelayed (s : QState) (t : Task) : QState :=
  { s with delayed := s.delayed.eraseP (fun u => u.id == t.id) }

/-- `remove` (source lines 257-301): fast path on `preempt`, fast path on a
future `queueTime`, then the linear scan of the three lists; throws only
when the scan finds nothing. -/
def remove (s : QState) (t : Task) : QState × Except String Unit :=
  if t.preempt then (removeFromProcessing s t, Except.ok ())
  else if t.queueTime > s.timeNow then (removeFromDelayed s t, Except.ok ())
  else if s.processing.any (fun u => u.id == t.id) then (removeFromProcessing s t, Except.ok ())
  else if s.pending.any (fun u => u.id == t.id) then (removeFromPending s t, Except.ok ())
  else if s.delayed.any (fun u => u.id == t.id) then (removeFromDelayed s t, Except.ok ())
  else (s, Except.error ("Task could not be found"))

/-- `completeAsyncTask` (source lines 341-364). -/
def completeAsyncTask (s : QState) (t : Task) : QState × Except String Unit :=
  if t.suspend then
    match s.suspenderTask with
    | some u =>
        if u.id = t.id then
          let s := checkYield { s with suspenderTask := none }
          (if isEmpty s then cancel s else s, Except.ok ())
        else (s, Except.error ("Async task completion mismatch"))
    | none => (s, Except.error ("Async task completion mismatch"))
  else
    let s := checkYield { s with pendingAsyncCount := s.pendingAsyncCount - 1 }
    (if isEmpty s then cancel s else s, Except.ok ())

namespace Ptr

/-!
Pointer-level embedding of the intrusive linked lists: tasks live in a heap
(indexed by id), carry raw `prev`/`next` pointers, and each of the three
lists is represented by its cached head/tail pointers and size counter,
exactly as the fields of `TaskQueue`.  Only the fields `remove` and the
linking helpers inspect (`preempt`, `queueTime`) are kept on the node.
-/

/-- A task node as seen by the linked-list layer. -/
structure Node where
  preempt : Bool
  queueTime : Nat
  prev : Option Nat
  next : Option Nat
deriving DecidableEq

instance : Inhabited Node := ⟨⟨false, 0, none, none⟩⟩

/-- The linked-list state of one `TaskQueue`. -/
structure PQ where
  heap : List Node
  processingHead : Option Nat
  processingTail : Option Nat
  processingSize : Nat
  pendingHead : Option Nat
  pendingTail : Option Nat
  pendingSize : Nat
  delayedHead : Option Nat
  delayedTail : Option Nat
  delayedSize : Nat
  timeNow : Nat
deriving DecidableEq

def getNode (s : PQ) (i : Nat) : Node := s.heap.getD i default

def setNextP (s : PQ) (i : Nat) (v : Option Nat) : PQ :=
  { s with heap := s.heap.set i { getNode s i with next := v } }

def setPrevP (s : PQ) (i : Nat) (v : Option Nat) : PQ :=
  { s with heap := s.heap.set i { getNode s i with prev := v } }

/-- `new Task(...)`: allocate a fresh node (id = heap index) with
`queueTime = now + delay` and no links. -/
def newTaskP (s : PQ) ( preemptFlag : Bool) (delay : Nat) : PQ × Nat :=
  (⟨s.heap ++ [⟨preemptFlag, s.timeNow + delay, none, none⟩],
    s.processingHead, s.processingTail, s.processingSize,
    s.pendingHead, s.pendingTail, s.pendingSize,
    s.delayedHead, s.delayedTail, s.delayedSize, s.timeNow⟩,
   s.heap.length)

/-- The tail-insertion statement
`tail = (task.prev = tail).next = task` shared by the three insertion sites
of `queueTask` (lines 203-226) and the `addTo*` helpers. -/
def linkAtTail (s : PQ) (tail : Option Nat) (i : Nat) : PQ :=
  let s := setPrevP s i tail
  match tail with
  | some t => setNextP s t (some i)
  | none => s

/-- The linking part of `queueTask` (source lines 203-226): a preempt task
goes to the processing list, a zero-delay task to pending, a delayed task to
delayed, inserted at the cached tail. -/
def queueTaskP (s : PQ) (preemptFlag : Bool) (delay : Nat) : PQ × Nat :=
  let r := newTaskP s preemptFlag delay
  let s := r.1
  let i := r.2
  if preemptFlag then
    if s.processingSize = 0 then
      ({ s with processingHead := some i, processingTail := some i, processingSize := 1 }, i)
    else
      let s := linkAtTail s s.processingTail i
      ({ s with processingTail := some i, processingSize := s.processingSize + 1 }, i)
  else if delay = 0 then
    if s.pendingSize = 0 then
      ({ s with pendingHead := some i, pendingTail := some i, pendingSize := 1 }, i)
    else
      let s := linkAtTail s s.pendingTail i
      ({ s with pendingTail := some i, pendingSize := s.pendingSize + 1 }, i)
  else
    if s.delayedSize = 0 then
      ({ s with delayedHead := some i, delayedTail := some i, delayedSize := 1 }, i)
    else
      let s := linkAtTail s s.delayedTail i
      ({ s with delayedTail := some i, delayedSize := s.delayedSize + 1 }, i)

/-- `finish` (source lines 365-374): splice the node out by its own
`prev`/`next` pointers. -/
def finishP (s : PQ) (i : Nat) : PQ :=
  let n := getNode s i
  let s := match n.next with
    | some j => setPrevP s j n.prev
    | none => s
  match n.prev with
  | some j => setNextP s j n.next
  | none => s

/-- `removeFromProcessing` (source lines 375-386). -/
def removeFromProcessingP (s : PQ) (i : Nat) : PQ :=
  let s := if s.processingHead = some i then { s with processingHead := (getNode s i).next } else s
  let s := if s.processingTail = some i then { s with processingTail := (getNode s i).prev } else s
  let s := { s with processingSize := s.processingSize - 1 }
  finishP s i

/-- `removeFromPending` (source lines 387-398). -/
def removeFromPendingP (s : PQ) (i : Nat) : PQ :=
  let s := if s.pendingHead = some i then { s with pendingHead := (getNode s i).next } else s
  let s := if s.pendingTail = some i then { s with pendingTail := (getNode s i).prev } else s
  let s := { s with pendingSize := s.pendingSize - 1 }
  finishP s i

/-- `removeFromDelayed` (source lines 399-410). -/
def removeFromDelayedP (s : PQ) (i : Nat) : PQ :=
  let s := if s.delayedHead = some i then { s with delayedHead := (getNode s i).next } else s
  let s := if s.delayedTail = some i then { s with delayedTail := (getNode s i).prev } else s
  let s := { s with delayedSize := s.delayedSize - 1 }
  finishP s i

/-- `movePendingToProcessing` (source lines 441-458), pointer for pointer:
note that the splice sets `processingTail.next` but never updates
`pendingHead.prev`. -/
def movePendingToProcessingP (s : PQ) : PQ :=
  let s :=
    if s.processingSize = 0 then
      { s with
        processingHead := s.pendingHead,
        processingTail := s.pendingTail,
        processingSize := s.pendingSize }
    else
      let s := match s.processingTail with
        | some t => setNextP s t s.pendingHead
        | none => s
      { s with processingTail := s.pendingTail, processingSize := s.processingSize + s.pendingSize }
  { s with pendingHead := none, pendingTail := none, pendingSize := 0 }

/-- The `while (cur !== void 0) { if (cur === task) ... cur = cur.next }`
scan of `remove`, as a fuel-bounded walk along `next` links. -/
def findInChain (s : PQ) : Nat → Option Nat → Nat → Bool
  | 0, _, _ => false
  | _ + 1, none, _ => false
  | fuel + 1, some c, i => if c = i then true else findInChain s fuel (getNode s c).next i

/-- `remove` (source lines 257-301) at the pointer level; the boolean is
`true` when the task was (believed) found, `false` for the final throw. -/
def removeP (s : PQ) (i : Nat) : PQ × Bool :=
  let n := getNode s i
  if n.preempt then (removeFromProcessingP s i, true)
  else if n.queueTime > s.timeNow then (removeFromDelayedP s i, true)
  else if findInChain s (s.heap.length + 1) s.processingHead i then (removeFromProcessingP s i, true)
  else if findInChain s (s.heap.length + 1) s.pendingHead i then (removeFromPendingP s i, true)
  else if findInChain s (s.heap.length + 1) s.delayedHead i then (removeFromDelayedP s i, true)
  else (s, false)

/-- Collect the list of node ids reachable from a head pointer by following
`next` links, or `none` if the walk does not terminate within `fuel` steps. -/
def chainL (s : PQ) : Nat → Option Nat → Option (List Nat)
  | _, none => some []
  | 0, some _ => none
  | fuel + 1, some c =>
      match chainL s fuel (getNode s c).next with
      | some l => some (c :: l)
      | none => none

/-- The list-shape invariant of one list, as stated by the spec: the cached
size equals the number of nodes reachable from the head via `next`, the
cached tail is the last such node, and head/tail are absent exactly when the
size is zero. -/
def listOk (s : PQ) (head tail : Option Nat) (size : Nat) : Bool :=
  match chainL s (s.heap.length + 1) head with
  | some l => size == l.length && tail == l.getLast?
  | none => false

/-- The list-shape invariant for all three lists of the queue. -/
def wellFormed (s : PQ) : Bool :=
  listOk s s.processingHead s.processingTail s.processingSize &&
    listOk s s.pendingHead s.pendingTail s.pendingSize &&
    listOk s s.delayedHead s.delayedTail s.delayedSize

/-!
The concrete scenario refuting the preservation of the shape invariant:
from an empty queue at time 100, queue tasks A and B (delay 0, ids 0 and 1,
both land in pending), then preempt tasks P1 and P2 (ids 2 and 3, both land
in processing).  A flush begins: `movePendingToProcessing` splices pending
behind P2 (`P2.next := A`), but never sets `A.prev := P2`.  P1 runs (the run
step unlinks the head, per the spec's drain semantics, via
`removeFromProcessing`).  P1's callback cancels A, i.e. calls `remove(A)`:
the scan finds A in the processing chain, `removeFromProcessing(A)` leaves
head and tail alone and decrements the size, and `finish(A)` — seeing
`A.prev = undefined` — never redirects `P2.next`, so A stays reachable.
-/

def s0 : PQ := ⟨[], none, none, 0, none, none, 0, none, none, 0, 100⟩
def s1 : PQ := (queueTaskP s0 false 0).1
def s2 : PQ := (queueTaskP s1 false 0).1
def s3 : PQ := (queueTaskP s2 true 0).1
def s4 : PQ := (queueTaskP s3 true 0).1
def s5 : PQ := movePendingToProcessingP s4
def s6 : PQ := removeFromProcessingP s5 2
def s7 : PQ := (removeP s6 0).1

end Ptr

/-! ## Helper lemmas -/

theorem allPersistent_eq_all (l : List Task) :
    allPersistent l = l.all (fun t => t.persistent) := by
  induction l with
  | nil => rfl
  | cons t rest ih =>
      by_cases h : t.persistent <;> simp [allPersistent, h, ih]

theorem allPersistent_iff (l : List Task) :
    allPersistent l = true ↔ ∀ t ∈ l, t.persistent = true := by
  rw [allPersistent_eq_all]
  simp [List.all_eq_true]

theorem hasNoMoreFiniteWork_iff (s : QState) :
    hasNoMoreFiniteWork s = true ↔ specNoFiniteWork s := by
  unfold hasNoMoreFiniteWork specNoFiniteWork
  by_cases h : s.pendingAsyncCount > 0
  · simp [h]
    omega
  · have hc : s.pendingAsyncCount = 0 := by omega
    rw [if_neg h]
    simp only [Bool.and_eq_true, allPersistent_iff]
    constructor
    · rintro ⟨⟨h1, h2⟩, h3⟩
      refine ⟨hc, ?_⟩
      intro t ht
      rcases List.mem_append.1 ht with ht | ht
      · rcases List.mem_append.1 ht with ht | ht
        · exact h1 t ht
        · exact h2 t ht
      · exact h3 t ht
    · rintro ⟨-, h2⟩
      exact ⟨⟨fun t ht => h2 t (List.mem_append.2 (Or.inl (List.mem_append.2 (Or.inl ht)))),
             fun t ht => h2 t (List.mem_append.2 (Or.inl (List.mem_append.2 (Or.inr ht))))⟩,
             fun t ht => h2 t (List.mem_append.2 (Or.inr ht))⟩

theorem dueSplit_eq (time : Nat) (l : List Task) :
    dueSplit time l =
      (l.takeWhile (fun t => t.queueTime ≤ time), l.dropWhile (fun t => t.queueTime ≤ time)) := by
  induction l with
  | nil => rfl
  | cons t rest ih =>
      by_cases h : t.queueTime ≤ time <;>
        simp [dueSplit, List.takeWhile_cons, List.dropWhile_cons, h, ih]

theorem moveDelayedToProcessing_eq (s : QState) :
    moveDelayedToProcessing s =
      { s with
        processing := s.processing ++ s.delayed.takeWhile (fun t => t.queueTime ≤ s.timeNow),
        delayed := s.delayed.dropWhile (fun t => t.queueTime ≤ s.timeNow) } := by
  unfold moveDelayedToProcessing
  match hd : s.delayed with
  | [] =>
      simp only [List.takeWhile_nil, List.dropWhile_nil, List.append_nil]
      rw [← hd]
  | dh :: rest =>
      by_cases h : dh.queueTime ≤ s.timeNow
      · simp [h, dueSplit_eq, List.takeWhile_cons, List.dropWhile_cons]
      · simp only [h, if_false, List.takeWhile_cons, List.dropWhile_cons, decide_eq_true_eq,
          List.append_nil]
        rw [← hd]

@[simp] theorem cancelMicroPoke_processing (s : QState) :
    (cancelMicroPoke s).processing = s.processing := by
  cases hm : s.microPoke <;> simp [cancelMicroPoke, hm]

@[simp] theorem cancelMicroPoke_pending (s : QState) :
    (cancelMicroPoke s).pending = s.pending := by
  cases hm : s.microPoke <;> simp [cancelMicroPoke, hm]

@[simp] theorem cancelMicroPoke_delayed (s : QState) :
    (cancelMicroPoke s).delayed = s.delayed := by
  cases hm : s.microPoke <;> simp [cancelMicroPoke, hm]

@[simp] theorem cancelMicroPoke_suspenderTask (s : QState) :
    (cancelMicroPoke s).suspenderTask = s.suspenderTask := by
  cases hm : s.microPoke <;> simp [cancelMicroPoke, hm]

@[simp] theorem cancelMicroPoke_pendingAsyncCount (s : QState) :
    (cancelMicroPoke s).pendingAsyncCount = s.pendingAsyncCount := by
  cases hm : s.microPoke <;> simp [cancelMicroPoke, hm]

@[simp] theorem cancelMicroPoke_flushRequested (s : QState) :
    (cancelMicroPoke s).flushRequested = s.flushRequested := by
  cases hm : s.microPoke <;> simp [cancelMicroPoke, hm]

@[simp] theorem cancelMicroPoke_yieldPromise (s : QState) :
    (cancelMicroPoke s).yieldPromise = s.yieldPromise := by
  cases hm : s.microPoke <;> simp [cancelMicroPoke, hm]

@[simp] theorem cancelMicroPoke_resolvedYields (s : QState) :
    (cancelMicroPoke s).resolvedYields = s.resolvedYields := by
  cases hm : s.microPoke <;> simp [cancelMicroPoke, hm]

@[simp] theorem cancelMicroPoke_runTrace (s : QState) :
    (cancelMicroPoke s).runTrace = s.runTrace := by
  cases hm : s.microPoke <;> simp [cancelMicroPoke, hm]

@[simp] theorem cancelMicroPoke_outstanding (s : QState) :
    (cancelMicroPoke s).outstanding = s.outstanding := by
  cases hm : s.microPoke <;> simp [cancelMicroPoke, hm]

@[simp] theorem cancelMicroPoke_requestCalls (s : QState) :
    (cancelMicroPoke s).requestCalls = s.requestCalls := by
  cases hm : s.microPoke <;> simp [cancelMicroPoke, hm]

@[simp] theorem cancelMicroPoke_timeNow (s : QState) :
    (cancelMicroPoke s).timeNow = s.timeNow := by
  cases hm : s.microPoke <;> simp [cancelMicroPoke, hm]

@[simp] theorem cancelMicroPoke_priority (s : QState) :
    (cancelMicroPoke s).priority = s.priority := by
  cases hm : s.microPoke <;> simp [cancelMicroPoke, hm]

@[simp] theorem cancelMicroPoke_pokeFresh (s : QState) :
    (cancelMicroPoke s).pokeFresh = s.pokeFresh := by
  cases hm : s.microPoke <;> simp [cancelMicroPoke, hm]

@[simp] theorem cancelMicroPoke_microPoke (s : QState) :
    (cancelMicroPoke s).microPoke = none := by
  cases hm : s.microPoke <;> simp [cancelMicroPoke, hm]

@[simp] theorem cancelMicroPoke_taskPool (s : QState) :
    (cancelMicroPoke s).taskPool = s.taskPool := by
  cases hm : s.microPoke <;> simp [cancelMicroPoke, hm]

@[simp] theorem cancelMicroPoke_taskFresh (s : QState) :
    (cancelMicroPoke s).taskFresh = s.taskFresh := by
  cases hm : s.microPoke <;> simp [cancelMicroPoke, hm]

@[simp] theorem requestFlush_taskFresh (s : QState) :
    (requestFlush s).taskFresh = s.taskFresh := by
  unfold requestFlush
  by_cases h : s.flushRequested <;> simp [h]

@[simp] theorem requestFlush_processing (s : QState) :
    (requestFlush s).processing = s.processing := by
  unfold requestFlush
  by_cases h : s.flushRequested <;> simp [h]

@[simp] theorem requestFlush_pending (s : QState) :
    (requestFlush s).pending = s.pending := by
  unfold requestFlush
  by_cases h : s.flushRequested <;> simp [h]

@[simp] theorem requestFlush_delayed (s : QState) :
    (requestFlush s).delayed = s.delayed := by
  unfold requestFlush
  by_cases h : s.flushRequested <;> simp [h]

@[simp] theorem requestFlush_suspenderTask (s : QState) :
    (requestFlush s).suspenderTask = s.suspenderTask := by
  unfold requestFlush
  by_cases h : s.flushRequested <;> simp [h]

@[simp] theorem requestFlush_pendingAsyncCount (s : QState) :
    (requestFlush s).pendingAsyncCount = s.pendingAsyncCount := by
  unfold requestFlush
  by_cases h : s.flushRequested <;> simp [h]

@[simp] theorem requestFlush_yieldPromise (s : QState) :
    (requestFlush s).yieldPromise = s.yieldPromise := by
  unfold requestFlush
  by_cases h : s.flushRequested <;> simp [h]

@[simp] theorem requestFlush_resolvedYields (s : QState) :
    (requestFlush s).resolvedYields = s.resolvedYields := by
  unfold requestFlush
  by_cases h : s.flushRequested <;> simp [h]

@[simp] theorem requestFlush_runTrace (s : QState) :
    (requestFlush s).runTrace = s.runTrace := by
  unfold requestFlush
  by_cases h : s.flushRequested <;> simp [h]

@[simp] theorem requestFlush_timeNow (s : QState) :
    (requestFlush s).timeNow = s.timeNow := by
  unfold requestFlush
  by_cases h : s.flushRequested <;> simp [h]

@[simp] theorem requestFlush_priority (s : QState) :
    (requestFlush s).priority = s.priority := by
  unfold requestFlush
  by_cases h : s.flushRequested <;> simp [h]

@[simp] theorem requestFlush_pokeFresh (s : QState) :
    (requestFlush s).pokeFresh = s.pokeFresh := by
  unfold requestFlush
  by_cases h : s.flushRequested <;> simp [h]

@[simp] theorem requestFlush_microPoke (s : QState) :
    (requestFlush s).microPoke = none := by
  unfold requestFlush
  by_cases h : s.flushRequested <;> simp [h]

@[simp] theorem requestFlush_taskPool (s : QState) :
    (requestFlush s).taskPool = s.taskPool := by
  unfold requestFlush
  by_cases h : s.flushRequested <;> simp [h]

@[simp] theorem requestFlush_macroPokes (s : QState) :
    (requestFlush s).macroPokes = (cancelMicroPoke s).macroPokes := by
  unfold requestFlush
  by_cases h : s.flushRequested <;> simp [h]

@[simp] theorem requestFlush_flushRequested (s : QState) :
    (requestFlush s).flushRequested = true := by
  unfold requestFlush
  by_cases h : s.flushRequested <;> simp [h]

theorem requestFlush_requestCalls (s : QState) :
    (requestFlush s).requestCalls = s.requestCalls + (if s.flushRequested then 0 else 1) := by
  unfold requestFlush
  by_cases h : s.flushRequested <;> simp [h]

theorem requestFlush_outstanding (s : QState) :
    (requestFlush s).outstanding = s.outstanding + (if s.flushRequested then 0 else 1) := by
  unfold requestFlush
  by_cases h : s.flushRequested <;> simp [h]

@[simp] theorem requestFlushClamped_processing (s : QState) :
    (requestFlushClamped s).processing = s.processing := by
  unfold requestFlushClamped
  by_cases h : s.priority ≤ 0 <;> simp [h]

@[simp] theorem requestFlushClamped_pending (s : QState) :
    (requestFlushClamped s).pending = s.pending := by
  unfold requestFlushClamped
  by_cases h : s.priority ≤ 0 <;> simp [h]

@[simp] theorem requestFlushClamped_delayed (s : QState) :
    (requestFlushClamped s).delayed = s.delayed := by
  unfold requestFlushClamped
  by_cases h : s.priority ≤ 0 <;> simp [h]

@[simp] theorem requestFlushClamped_suspenderTask (s : QState) :
    (requestFlushClamped s).suspenderTask = s.suspenderTask := by
  unfold requestFlushClamped
  by_cases h : s.priority ≤ 0 <;> simp [h]

@[simp] theorem requestFlushClamped_pendingAsyncCount (s : QState) :
    (requestFlushClamped s).pendingAsyncCount = s.pendingAsyncCount := by
  unfold requestFlushClamped
  by_cases h : s.priority ≤ 0 <;> simp [h]

@[simp] theorem requestFlushClamped_yieldPromise (s : QState) :
    (requestFlushClamped s).yieldPromise = s.yieldPromise := by
  unfold requestFlushClamped
  by_cases h : s.priority ≤ 0 <;> simp [h]

@[simp] theorem requestFlushClamped_resolvedYields (s : QState) :
    (requestFlushClamped s).resolvedYields = s.resolvedYields := by
  unfold requestFlushClamped
  by_cases h : s.priority ≤ 0 <;> simp [h]

@[simp] theorem requestFlushClamped_runTrace (s : QState) :
    (requestFlushClamped s).runTrace = s.runTrace := by
  unfold requestFlushClamped
  by_cases h : s.priority ≤ 0 <;> simp [h]

@[simp] theorem requestFlushClamped_timeNow (s : QState) :
    (requestFlushClamped s).timeNow = s.timeNow := by
  unfold requestFlushClamped
  by_cases h : s.priority ≤ 0 <;> simp [h]

@[simp] theorem requestFlushClamped_priority (s : QState) :
    (requestFlushClamped s).priority = s.priority := by
  unfold requestFlushClamped
  by_cases h : s.priority ≤ 0 <;> simp [h]

@[simp] theorem requestFlushClamped_taskPool (s : QState) :
    (requestFlushClamped s).taskPool = s.taskPool := by
  unfold requestFlushClamped
  by_cases h : s.priority ≤ 0 <;> simp [h]

@[simp] theorem checkYield_processing (s : QState) :
    (checkYield s).processing = s.processing := by
  cases hy : s.yieldPromise with
  | none => simp [checkYield, hy]
  | some p =>
      by_cases h : hasNoMoreFiniteWork s <;> simp [checkYield, hy, h]

@[simp] theorem checkYield_pending (s : QState) :
    (checkYield s).pending = s.pending := by
  cases hy : s.yieldPromise with
  | none => simp [checkYield, hy]
  | some p =>
      by_cases h : hasNoMoreFiniteWork s <;> simp [checkYield, hy, h]

@[simp] theorem checkYield_delayed (s : QState) :
    (checkYield s).delayed = s.delayed := by
  cases hy : s.yieldPromise with
  | none => simp [checkYield, hy]
  | some p =>
      by_cases h : hasNoMoreFiniteWork s <;> simp [checkYield, hy, h]

@[simp] theorem checkYield_suspenderTask (s : QState) :
    (checkYield s).suspenderTask = s.suspenderTask := by
  cases hy : s.yieldPromise with
  | none => simp [checkYield, hy]
  | some p =>
      by_cases h : hasNoMoreFiniteWork s <;> simp [checkYield, hy, h]

@[simp] theorem checkYield_pendingAsyncCount (s : QState) :
    (checkYield s).pendingAsyncCount = s.pendingAsyncCount := by
  cases hy : s.yieldPromise with
  | none => simp [checkYield, hy]
  | some p =>
      by_cases h : hasNoMoreFiniteWork s <;> simp [checkYield, hy, h]

@[simp] theorem checkYield_flushRequested (s : QState) :
    (checkYield s).flushRequested = s.flushRequested := by
  cases hy : s.yieldPromise with
  | none => simp [checkYield, hy]
  | some p =>
      by_cases h : hasNoMoreFiniteWork s <;> simp [checkYield, hy, h]

@[simp] theorem checkYield_microPoke (s : QState) :
    (checkYield s).microPoke = s.microPoke := by
  cases hy : s.yieldPromise with
  | none => simp [checkYield, hy]
  | some p =>
      by_cases h : hasNoMoreFiniteWork s <;> simp [checkYield, hy, h]

@[simp] theorem checkYield_macroPokes (s : QState) :
    (checkYield s).macroPokes = s.macroPokes := by
  cases hy : s.yieldPromise with
  | none => simp [checkYield, hy]
  | some p =>
      by_cases h : hasNoMoreFiniteWork s <;> simp [checkYield, hy, h]

@[simp] theorem checkYield_outstanding (s : QState) :
    (checkYield s).outstanding = s.outstanding := by
  cases hy : s.yieldPromise with
  | none => simp [checkYield, hy]
  | some p =>
      by_cases h : hasNoMoreFiniteWork s <;> simp [checkYield, hy, h]

@[simp] theorem checkYield_requestCalls (s : QState) :
    (checkYield s).requestCalls = s.requestCalls := by
  cases hy : s.yieldPromise with
  | none => simp [checkYield, hy]
  | some p =>
      by_cases h : hasNoMoreFiniteWork s <;> simp [checkYield, hy, h]

@[simp] theorem checkYield_runTrace (s : QState) :
    (checkYield s).runTrace = s.runTrace := by
  cases hy : s.yieldPromise with
  | none => simp [checkYield, hy]
  | some p =>
      by_cases h : hasNoMoreFiniteWork s <;> simp [checkYield, hy, h]

@[simp] theorem checkYield_timeNow (s : QState) :
    (checkYield s).timeNow = s.timeNow := by
  cases hy : s.yieldPromise with
  | none => simp [checkYield, hy]
  | some p =>
      by_cases h : hasNoMoreFiniteWork s <;> simp [checkYield, hy, h]

@[simp] theorem checkYield_priority (s : QState) :
    (checkYield s).priority = s.priority := by
  cases hy : s.yieldPromise with
  | none => simp [checkYield, hy]
  | some p =>
      by_cases h : hasNoMoreFiniteWork s <;> simp [checkYield, hy, h]

@[simp] theorem resetPersistentTask_processing (s : QState) (t : Task) :
    (resetPersistentTask s t).processing = s.processing := by
  by_cases h : (resetTask s.timeNow t).createdTime = (resetTask s.timeNow t).queueTime <;>
    simp [resetPersistentTask, h]

@[simp] theorem resetPersistentTask_suspenderTask (s : QState) (t : Task) :
    (resetPersistentTask s t).suspenderTask = s.suspenderTask := by
  by_cases h : (resetTask s.timeNow t).createdTime = (resetTask s.timeNow t).queueTime <;>
    simp [resetPersistentTask, h]

@[simp] theorem resetPersistentTask_pendingAsyncCount (s : QState) (t : Task) :
    (resetPersistentTask s t).pendingAsyncCount = s.pendingAsyncCount := by
  by_cases h : (resetTask s.timeNow t).createdTime = (resetTask s.timeNow t).queueTime <;>
    simp [resetPersistentTask, h]

@[simp] theorem resetPersistentTask_flushRequested (s : QState) (t : Task) :
    (resetPersistentTask s t).flushRequested = s.flushRequested := by
  by_cases h : (resetTask s.timeNow t).createdTime = (resetTask s.timeNow t).queueTime <;>
    simp [resetPersistentTask, h]

@[simp] theorem resetPersistentTask_yieldPromise (s : QState) (t : Task) :
    (resetPersistentTask s t).yieldPromise = s.yieldPromise := by
  by_cases h : (resetTask s.timeNow t).createdTime = (resetTask s.timeNow t).queueTime <;>
    simp [resetPersistentTask, h]

@[simp] theorem resetPersistentTask_resolvedYields (s : QState) (t : Task) :
    (resetPersistentTask s t).resolvedYields = s.resolvedYields := by
  by_cases h : (resetTask s.timeNow t).createdTime = (resetTask s.timeNow t).queueTime <;>
    simp [resetPersistentTask, h]

@[simp] theorem resetPersistentTask_runTrace (s : QState) (t : Task) :
    (resetPersistentTask s t).runTrace = s.runTrace := by
  by_cases h : (resetTask s.timeNow t).createdTime = (resetTask s.timeNow t).queueTime <;>
    simp [resetPersistentTask, h]

@[simp] theorem resetPersistentTask_microPoke (s : QState) (t : Task) :
    (resetPersistentTask s t).microPoke = s.microPoke := by
  by_cases h : (resetTask s.timeNow t).createdTime = (resetTask s.timeNow t).queueTime <;>
    simp [resetPersistentTask, h]

@[simp] theorem resetPersistentTask_macroPokes (s : QState) (t : Task) :
    (resetPersistentTask s t).macroPokes = s.macroPokes := by
  by_cases h : (resetTask s.timeNow t).createdTime = (resetTask s.timeNow t).queueTime <;>
    simp [resetPersistentTask, h]

@[simp] theorem resetPersistentTask_outstanding (s : QState) (t : Task) :
    (resetPersistentTask s t).outstanding = s.outstanding := by
  by_cases h : (resetTask s.timeNow t).createdTime = (resetTask s.timeNow t).queueTime <;>
    simp [resetPersistentTask, h]

@[simp] theorem resetPersistentTask_requestCalls (s : QState) (t : Task) :
    (resetPersistentTask s t).requestCalls = s.requestCalls := by
  by_cases h : (resetTask s.timeNow t).createdTime = (resetTask s.timeNow t).queueTime <;>
    simp [resetPersistentTask, h]

@[simp] theorem resetPersistentTask_timeNow (s : QState) (t : Task) :
    (resetPersistentTask s t).timeNow = s.timeNow := by
  by_cases h : (resetTask s.timeNow t).createdTime = (resetTask s.timeNow t).queueTime <;>
    simp [resetPersistentTask, h]

@[simp] theorem resetPersistentTask_priority (s : QState) (t : Task) :
    (resetPersistentTask s t).priority = s.priority := by
  by_cases h : (resetTask s.timeNow t).createdTime = (resetTask s.timeNow t).queueTime <;>
    simp [resetPersistentTask, h]

theorem migrate_eq (s : QState) :
    migrate s =
      { s with
        processing :=
          s.processing ++ s.pending ++ s.delayed.takeWhile (fun t => t.queueTime ≤ s.timeNow),
        pending := [],
        delayed := s.delayed.dropWhile (fun t => t.queueTime ≤ s.timeNow) } := by
  obtain ⟨pr, tn, proc, pen, del, su, pac, fr, yp, pf, tp, tf, lr, mp, pkf, mpk, rt, ry, rc, cc, os⟩ := s
  cases pen with
  | nil =>
      cases del with
      | nil => simp [migrate]
      | cons d dl => simp [migrate, moveDelayedToProcessing_eq]
  | cons p pl =>
      cases del with
      | nil => simp [migrate, movePendingToProcessing]
      | cons d dl => simp [migrate, movePendingToProcessing, moveDelayedToProcessing_eq]

@[simp] theorem flushEntry_processing (s : QState) :
    (flushEntry s).processing = s.processing := by
  simp [flushEntry]

@[simp] theorem flushEntry_pending (s : QState) :
    (flushEntry s).pending = s.pending := by
  simp [flushEntry]

@[simp] theorem flushEntry_delayed (s : QState) :
    (flushEntry s).delayed = s.delayed := by
  simp [flushEntry]

@[simp] theorem flushEntry_suspenderTask (s : QState) :
    (flushEntry s).suspenderTask = s.suspenderTask := by
  simp [flushEntry]

@[simp] theorem flushEntry_pendingAsyncCount (s : QState) :
    (flushEntry s).pendingAsyncCount = s.pendingAsyncCount := by
  simp [flushEntry]

@[simp] theorem flushEntry_yieldPromise (s : QState) :
    (flushEntry s).yieldPromise = s.yieldPromise := by
  simp [flushEntry]

@[simp] theorem flushEntry_resolvedYields (s : QState) :
    (flushEntry s).resolvedYields = s.resolvedYields := by
  simp [flushEntry]

@[simp] theorem flushEntry_runTrace (s : QState) :
    (flushEntry s).runTrace = s.runTrace := by
  simp [flushEntry]

@[simp] theorem flushEntry_timeNow (s : QState) :
    (flushEntry s).timeNow = s.timeNow := by
  simp [flushEntry]

@[simp] theorem flushEntry_priority (s : QState) :
    (flushEntry s).priority = s.priority := by
  simp [flushEntry]

@[simp] theorem flushEntry_flushRequested (s : QState) :
    (flushEntry s).flushRequested = false := by
  simp [flushEntry]

@[simp] theorem flushEntry_microPoke (s : QState) :
    (flushEntry s).microPoke = none := by
  simp [flushEntry]

@[simp] theorem flushEntry_outstanding (s : QState) :
    (flushEntry s).outstanding = s.outstanding - 1 := by
  simp [flushEntry]

@[simp] theorem flushEntry_requestCalls (s : QState) :
    (flushEntry s).requestCalls = s.requestCalls := by
  simp [flushEntry]

@[simp] theorem flushEntry_pokeFresh (s : QState) :
    (flushEntry s).pokeFresh = s.pokeFresh := by
  simp [flushEntry]

@[simp] theorem cancel_processing (s : QState) :
    (cancel s).processing = s.processing := by
  unfold cancel
  by_cases h : s.flushRequested <;> simp [h]

@[simp] theorem cancel_pending (s : QState) :
    (cancel s).pending = s.pending := by
  unfold cancel
  by_cases h : s.flushRequested <;> simp [h]

@[simp] theorem cancel_delayed (s : QState) :
    (cancel s).delayed = s.delayed := by
  unfold cancel
  by_cases h : s.flushRequested <;> simp [h]

@[simp] theorem cancel_suspenderTask (s : QState) :
    (cancel s).suspenderTask = s.suspenderTask := by
  unfold cancel
  by_cases h : s.flushRequested <;> simp [h]

@[simp] theorem cancel_pendingAsyncCount (s : QState) :
    (cancel s).pendingAsyncCount = s.pendingAsyncCount := by
  unfold cancel
  by_cases h : s.flushRequested <;> simp [h]

@[simp] theorem cancel_yieldPromise (s : QState) :
    (cancel s).yieldPromise = s.yieldPromise := by
  unfold cancel
  by_cases h : s.flushRequested <;> simp [h]

@[simp] theorem cancel_resolvedYields (s : QState) :
    (cancel s).resolvedYields = s.resolvedYields := by
  unfold cancel
  by_cases h : s.flushRequested <;> simp [h]

@[simp] theorem cancel_runTrace (s : QState) :
    (cancel s).runTrace = s.runTrace := by
  unfold cancel
  by_cases h : s.flushRequested <;> simp [h]

@[simp] theorem cancel_flushRequested (s : QState) :
    (cancel s).flushRequested = false := by
  unfold cancel
  by_cases h : s.flushRequested <;> simp [h]

@[simp] theorem cancel_microPoke (s : QState) :
    (cancel s).microPoke = none := by
  unfold cancel
  by_cases h : s.flushRequested <;> simp [h]

@[simp] theorem cancel_requestCalls (s : QState) :
    (cancel s).requestCalls = s.requestCalls := by
  unfold cancel
  by_cases h : s.flushRequested <;> simp [h]

theorem cancel_outstanding (s : QState) :
    (cancel s).outstanding = s.outstanding - (if s.flushRequested then 1 else 0) := by
  unfold cancel
  by_cases h : s.flushRequested <;> simp [h]

theorem ite_isEmpty (l : List Task) :
    (if l.isEmpty then l else ([] : List Task)) = [] := by
  cases l <;> simp

/-- Draining a processing list that contains no suspending async task never
ends early, records exactly the ids of the drained tasks in order, and leaves
the suspension, yield and flush-request observables untouched. -/
theorem drain_no_suspend (l : List Task) (s : QState)
    (h : ∀ u ∈ l, ¬(u.kind = RunKind.async ∧ u.suspend = true)) :
    (drain s l).2 = false ∧
    (drain s l).1.runTrace = s.runTrace ++ l.map (fun t => t.id) ∧
    (drain s l).1.suspenderTask = s.suspenderTask ∧
    (drain s l).1.yieldPromise = s.yieldPromise ∧
    (drain s l).1.resolvedYields = s.resolvedYields ∧
    (drain s l).1.processing = (if l.isEmpty then s.processing else []) ∧
    (drain s l).1.flushRequested = s.flushRequested ∧
    (drain s l).1.outstanding = s.outstanding ∧
    (drain s l).1.requestCalls = s.requestCalls ∧
    (drain s l).1.microPoke = s.microPoke ∧
    (drain s l).1.macroPokes = s.macroPokes ∧
    (drain s l).1.timeNow = s.timeNow ∧
    (drain s l).1.priority = s.priority := by
  induction l generalizing s with
  | nil => simp [drain]
  | cons cur rest ih =>
      have hcur := h cur (List.mem_cons_self cur rest)
      have hrest : ∀ u ∈ rest, ¬(u.kind = RunKind.async ∧ u.suspend = true) :=
        fun u hu => h u (List.mem_cons_of_mem cur hu)
      match hk : cur.kind with
      | RunKind.sync =>
          by_cases hp : cur.persistent
          · obtain ⟨b1, b2, b3, b4, b5, b6, b7, b8, b9, b10, b11, b12, b13⟩ :=
              ih (resetPersistentTask { s with processing := rest, runTrace := s.runTrace ++ [cur.id] } cur) hrest
            simp [drain, hk, hp, b1, b2, b3, b4, b5, b6, b7, b8, b9, b10, b11, b12, b13,
              ite_isEmpty]
          · by_cases hr : cur.reusable
            · obtain ⟨b1, b2, b3, b4, b5, b6, b7, b8, b9, b10, b11, b12, b13⟩ :=
                ih ({ s with processing := rest, runTrace := s.runTrace ++ [cur.id], taskPool := s.taskPool ++ [cur] }) hrest
              simp [drain, hk, hp, hr, b1, b2, b3, b4, b5, b6, b7, b8, b9, b10, b11, b12, b13,
                ite_isEmpty]
            · obtain ⟨b1, b2, b3, b4, b5, b6, b7, b8, b9, b10, b11, b12, b13⟩ :=
                ih ({ s with processing := rest, runTrace := s.runTrace ++ [cur.id] }) hrest
              simp [drain, hk, hp, hr, b1, b2, b3, b4, b5, b6, b7, b8, b9, b10, b11, b12, b13,
                ite_isEmpty]
      | RunKind.async =>
          have hns : cur.suspend = false := by
            cases hcs : cur.suspend
            · rfl
            · exact absurd ⟨hk, hcs⟩ hcur
          obtain ⟨b1, b2, b3, b4, b5, b6, b7, b8, b9, b10, b11, b12, b13⟩ :=
            ih ({ s with processing := rest, runTrace := s.runTrace ++ [cur.id], pendingAsyncCount := s.pendingAsyncCount + 1 }) hrest
          simp [drain, hk, hns, b1, b2, b3, b4, b5, b6, b7, b8, b9, b10, b11, b12, b13,
            ite_isEmpty]

@[simp] theorem migrate_suspenderTask (s : QState) :
    (migrate s).suspenderTask = s.suspenderTask := by
  simp [migrate_eq]

@[simp] theorem migrate_pendingAsyncCount (s : QState) :
    (migrate s).pendingAsyncCount = s.pendingAsyncCount := by
  simp [migrate_eq]

@[simp] theorem migrate_flushRequested (s : QState) :
    (migrate s).flushRequested = s.flushRequested := by
  simp [migrate_eq]

@[simp] theorem migrate_yieldPromise (s : QState) :
    (migrate s).yieldPromise = s.yieldPromise := by
  simp [migrate_eq]

@[simp] theorem migrate_resolvedYields (s : QState) :
    (migrate s).resolvedYields = s.resolvedYields := by
  simp [migrate_eq]

@[simp] theorem migrate_runTrace (s : QState) :
    (migrate s).runTrace = s.runTrace := by
  simp [migrate_eq]

@[simp] theorem migrate_microPoke (s : QState) :
    (migrate s).microPoke = s.microPoke := by
  simp [migrate_eq]

@[simp] theorem migrate_macroPokes (s : QState) :
    (migrate s).macroPokes = s.macroPokes := by
  simp [migrate_eq]

@[simp] theorem migrate_outstanding (s : QState) :
    (migrate s).outstanding = s.outstanding := by
  simp [migrate_eq]

@[simp] theorem migrate_requestCalls (s : QState) :
    (migrate s).requestCalls = s.requestCalls := by
  simp [migrate_eq]

@[simp] theorem migrate_timeNow (s : QState) :
    (migrate s).timeNow = s.timeNow := by
  simp [migrate_eq]

@[simp] theorem migrate_priority (s : QState) :
    (migrate s).priority = s.priority := by
  simp [migrate_eq]

@[simp] theorem migrate_processing (s : QState) :
    (migrate s).processing =
      s.processing ++ s.pending ++ s.delayed.takeWhile (fun t => t.queueTime ≤ s.timeNow) := by
  simp [migrate_eq]

@[simp] theorem migrate_pending (s : QState) : (migrate s).pending = [] := by
  simp [migrate_eq]

@[simp] theorem migrate_delayed (s : QState) :
    (migrate s).delayed = s.delayed.dropWhile (fun t => t.queueTime ≤ s.timeNow) := by
  simp [migrate_eq]

@[simp] theorem finishFlush_runTrace (s : QState) :
    (finishFlush s).runTrace = s.runTrace := by
  simp only [finishFlush, checkYield_runTrace]
  split
  · simp
  · split <;> simp

@[simp] theorem finishFlush_suspenderTask (s : QState) :
    (finishFlush s).suspenderTask = s.suspenderTask := by
  simp only [finishFlush, checkYield_suspenderTask]
  split
  · simp
  · split <;> simp

@[simp] theorem finishFlush_pendingAsyncCount (s : QState) :
    (finishFlush s).pendingAsyncCount = s.pendingAsyncCount := by
  simp only [finishFlush, checkYield_pendingAsyncCount]
  split
  · simp
  · split <;> simp

@[simp] theorem finishFlush_timeNow (s : QState) :
    (finishFlush s).timeNow = s.timeNow := by
  simp only [finishFlush, checkYield_timeNow]
  split
  · simp
  · split <;> simp

@[simp] theorem finishFlush_priority (s : QState) :
    (finishFlush s).priority = s.priority := by
  simp only [finishFlush, checkYield_priority]
  split
  · simp
  · split <;> simp

/-- The trace of a full (non-suspended, non-suspending) flush: first the
tasks already in processing, then the spliced-in pending tasks, then the due
prefix of delayed, in order. -/
theorem flush_trace (s : QState) (hsusp : s.suspenderTask = none)
    (h : ∀ u ∈ s.processing ++ s.pending ++
            s.delayed.takeWhile (fun t => t.queueTime ≤ s.timeNow),
          ¬(u.kind = RunKind.async ∧ u.suspend = true)) :
    (flush s).runTrace =
      s.runTrace ++
        (s.processing ++ s.pending ++
          s.delayed.takeWhile (fun t => t.queueTime ≤ s.timeNow)).map (fun t => t.id) := by
  unfold flush
  have hm : (flushEntry s).suspenderTask = none := by simp [hsusp]
  simp only [hm]
  have hlist : (migrate (flushEntry s)).processing =
      s.processing ++ s.pending ++ s.delayed.takeWhile (fun t => t.queueTime ≤ s.timeNow) := by
    simp
  obtain ⟨b1, b2, b3, b4, b5, b6, b7, b8, b9, b10, b11, b12, b13⟩ :=
    drain_no_suspend (migrate (flushEntry s)).processing (migrate (flushEntry s))
      (by rw [hlist]; exact h)
  simp only [b1, Bool.false_eq_true, if_false, finishFlush_runTrace, b2]
  simp [hlist]

/-- Draining a processing list whose first suspending async task is `t`
stops right after running `t`: everything before `t` runs, `t` is recorded
as the suspender, the remainder of the list is untouched, and a clamped
flush is requested. -/
theorem drain_until_suspend (l1 : List Task) (t : Task) (l2 : List Task) (s : QState)
    (h1 : ∀ u ∈ l1, ¬(u.kind = RunKind.async ∧ u.suspend = true))
    (ht : t.kind = RunKind.async) (hts : t.suspend = true) :
    ∃ s', drain s (l1 ++ t :: l2) = (requestFlushClamped s', true) ∧
      s'.suspenderTask = some t ∧ s'.processing = l2 ∧
      s'.runTrace = s.runTrace ++ l1.map (fun u => u.id) ++ [t.id] ∧
      s'.priority = s.priority ∧ s'.timeNow = s.timeNow := by
  induction l1 generalizing s with
  | nil =>
      refine ⟨{ s with processing := l2, runTrace := s.runTrace ++ [t.id], suspenderTask := some t }, ?_, rfl, rfl, by simp, rfl, rfl⟩
      simp [drain, ht, hts]
  | cons u l1' ih =>
      have hu := h1 u (List.mem_cons_self u l1')
      have hrest : ∀ v ∈ l1', ¬(v.kind = RunKind.async ∧ v.suspend = true) :=
        fun v hv => h1 v (List.mem_cons_of_mem u hv)
      match hk : u.kind with
      | RunKind.sync =>
          by_cases hp : u.persistent
          · obtain ⟨s', e1, e2, e3, e4, e5, e6⟩ :=
              ih (resetPersistentTask ({ s with processing := l1' ++ t :: l2, runTrace := s.runTrace ++ [u.id] }) u) hrest
            refine ⟨s', ?_, e2, e3, ?_, ?_, ?_⟩
            · simp only [List.cons_append, drain, hk, hp, if_true]
              exact e1
            · rw [e4]
              simp
            · rw [e5]
              simp
            · rw [e6]
              simp
          · by_cases hr : u.reusable
            · obtain ⟨s', e1, e2, e3, e4, e5, e6⟩ :=
                ih ({ s with processing := l1' ++ t :: l2, runTrace := s.runTrace ++ [u.id], taskPool := s.taskPool ++ [u] }) hrest
              refine ⟨s', ?_, e2, e3, ?_, ?_, ?_⟩
              · simp only [List.cons_append, drain, hk, hp, hr, if_true, if_false,
                  Bool.false_eq_true]
                exact e1
              · rw [e4]
                simp
              · rw [e5]
              · rw [e6]
            · obtain ⟨s', e1, e2, e3, e4, e5, e6⟩ :=
                ih ({ s with processing := l1' ++ t :: l2, runTrace := s.runTrace ++ [u.id] }) hrest
              refine ⟨s', ?_, e2, e3, ?_, ?_, ?_⟩
              · simp only [List.cons_append, drain, hk, hp, hr, if_false, Bool.false_eq_true]
                exact e1
              · rw [e4]
                simp
              · rw [e5]
              · rw [e6]
      | RunKind.async =>
          have hns : u.suspend = false := by
            cases hcs : u.suspend
            · rfl
            · exact absurd ⟨hk, hcs⟩ hu
          obtain ⟨s', e1, e2, e3, e4, e5, e6⟩ :=
            ih ({ s with processing := l1' ++ t :: l2, runTrace := s.runTrace ++ [u.id], pendingAsyncCount := s.pendingAsyncCount + 1 }) hrest
          refine ⟨s', ?_, e2, e3, ?_, ?_, ?_⟩
          · simp only [List.cons_append, drain, hk, hns, if_false, Bool.false_eq_true]
            exact e1
          · rw [e4]
            simp
          · rw [e5]
          · rw [e6]

theorem requestFlushClamped_micro (s : QState) (h : s.priority ≤ 0) :
    (requestFlushClamped s).microPoke = some s.pokeFresh ∧
    (requestFlushClamped s).pokeFresh = s.pokeFresh + 1 ∧
    (requestFlushClamped s).macroPokes =
      s.macroPokes ++ [⟨s.pokeFresh, microTaskRequestFlushTaskOptions, false⟩] ∧
    (requestFlushClamped s).flushRequested = s.flushRequested := by
  simp [requestFlushClamped, h]

theorem requestFlushClamped_macro (s : QState) (h : ¬s.priority ≤ 0) :
    requestFlushClamped s = requestFlush s := by
  simp [requestFlushClamped, h]

/-- Lines 120-125 of `flush`: with a suspender recorded, a flush does
nothing but reset the request state and ask for a clamped re-flush. -/
theorem flush_when_suspended (s : QState) (t : Task) (h : s.suspenderTask = some t) :
    flush s = requestFlushClamped (flushEntry s) := by
  unfold flush
  have hm : (flushEntry s).suspenderTask = some t := by simp [h]
  simp only [hm]

theorem checkYield_resolves (s : QState) (p : Nat) (hy : s.yieldPromise = some p)
    (hw : specNoFiniteWork s) :
    checkYield s =
      { s with yieldPromise := none, resolvedYields := s.resolvedYields ++ [p] } := by
  have hb := (hasNoMoreFiniteWork_iff s).2 hw
  simp [checkYield, hy, hb]

theorem checkYield_stuck_none (s : QState) (hy : s.yieldPromise = none) :
    checkYield s = s := by
  simp [checkYield, hy]

theorem checkYield_stuck_work (s : QState) (hw : ¬specNoFiniteWork s) :
    checkYield s = s := by
  have hb : hasNoMoreFiniteWork s = false := by
    cases hfin : hasNoMoreFiniteWork s
    · rfl
    · exact absurd ((hasNoMoreFiniteWork_iff s).1 hfin) hw
  cases hy : s.yieldPromise <;> simp [checkYield, hy, hb]

theorem mem_dropWhile_of_stuck (p : Task → Bool) (l1 : List Task) (u : Task) (l2 : List Task)
    (hu : p u = false) : ∀ v ∈ u :: l2, v ∈ (l1 ++ u :: l2).dropWhile p := by
  induction l1 with
  | nil =>
      intro v hv
      simpa [List.dropWhile_cons, hu] using hv
  | cons a l1' ih =>
      intro v hv
      by_cases ha : p a
      · simpa [List.dropWhile_cons, ha] using ih v hv
      · simp only [List.cons_append, List.dropWhile_cons, ha, Bool.false_eq_true, if_false]
        exact List.mem_cons_of_mem a (List.mem_append_right l1' hv)

/-- The successful path of `queueTask`: the returned task carries the merged
options, and it is appended at the tail of exactly one of the three lists
according to `preempt`/`delay`. -/
theorem queueTask_ok (s : QState) (opts : Options) (kind : RunKind)
    (hb1 : (opts.preempt && decide (0 < opts.delay)) = false)
    (hb2 : (opts.preempt && opts.persistent) = false)
    (hb3 : (opts.persistent && s.priority == 0) = false) :
    ∃ task, (queueTask s opts kind).2 = Except.ok task ∧
      task.preempt = opts.preempt ∧ task.persistent = opts.persistent ∧
      task.suspend = opts.suspend ∧ task.kind = kind ∧
      task.queueTime = s.timeNow + opts.delay ∧ task.createdTime = s.timeNow ∧
      (queueTask s opts kind).1.runTrace = s.runTrace ∧
      (queueTask s opts kind).1.suspenderTask = s.suspenderTask ∧
      (queueTask s opts kind).1.timeNow = s.timeNow ∧
      (queueTask s opts kind).1.priority = s.priority ∧
      (queueTask s opts kind).1.pendingAsyncCount = s.pendingAsyncCount ∧
      (queueTask s opts kind).1.yieldPromise = s.yieldPromise ∧
      (queueTask s opts kind).1.resolvedYields = s.resolvedYields ∧
      (queueTask s opts kind).1.processing =
        (if opts.preempt = true then s.processing ++ [task] else s.processing) ∧
      (queueTask s opts kind).1.pending =
        (if opts.preempt = false ∧ opts.delay = 0 then s.pending ++ [task] else s.pending) ∧
      (queueTask s opts kind).1.delayed =
        (if opts.preempt = false ∧ opts.delay ≠ 0 then s.delayed ++ [task] else s.delayed) ∧
      (queueTask s opts kind).1.flushRequested =
        (if s.processing.length = 0 then true else s.flushRequested) ∧
      (queueTask s opts kind).1.outstanding =
        (if s.processing.length = 0 then
          s.outstanding + (if s.flushRequested = true then 0 else 1) else s.outstanding) ∧
      (queueTask s opts kind).1.requestCalls =
        (if s.processing.length = 0 then
          s.requestCalls + (if s.flushRequested = true then 0 else 1) else s.requestCalls) ∧
      (queueTask s opts kind).1.microPoke =
        (if s.processing.length = 0 then none else s.microPoke) ∧
      (queueTask s opts kind).1.macroPokes =
        (if s.processing.length = 0 then (cancelMicroPoke s).macroPokes else s.macroPokes) := by
  unfold queueTask
  simp only [hb1, hb2, hb3, Bool.false_eq_true, if_false]
  rcases hpool : s.taskPool.getLast? with - | pooled <;>
    by_cases hq : s.processing.length = 0 <;>
      by_cases hr : opts.reusable = true <;>
        cases hpre : opts.preempt <;>
          by_cases hdel : opts.delay = 0 <;>
            first
            | (refine ⟨mkNewTask s.taskFresh s.timeNow opts kind, ?_⟩;
               simp [hq, hr, hpool, hpre, hdel, mkNewTask, requestFlush_outstanding,
                 requestFlush_requestCalls];
               done)
            | (refine ⟨reuseTask pooled s.timeNow opts kind, ?_⟩;
               simp [hq, hr, hpool, hpre, hdel, reuseTask, requestFlush_outstanding,
                 requestFlush_requestCalls];
               done)

/-! ## Concrete states used by counterexamples and witnesses -/

/-- A concrete empty macrotask-priority queue. -/
def emptyQ : QState :=
  { priority := 1, timeNow := 100, processing := [], pending := [], delayed := [],
    suspenderTask := none, pendingAsyncCount := 0, flushRequested := false,
    yieldPromise := none, promiseFresh := 0, taskPool := [], taskFresh := 50,
    lastRequest := 0, microPoke := none, pokeFresh := 0, macroPokes := [],
    runTrace := [], resolvedYields := [], requestCalls := 0, cancelCalls := 0,
    outstanding := 0 }

/-- A concrete empty microtask-priority queue. -/
def emptyMicroQ : QState := { emptyQ with priority := 0 }

/-- A plain one-off synchronous task with the given id, due immediately. -/
def wTask (i : Nat) : Task := ⟨i, 100, 100, false, false, false, false, RunKind.sync⟩

/-- A delayed synchronous task with the given id and queue time. -/
def wDelayed (i q : Nat) : Task := ⟨i, 100, q, false, false, false, false, RunKind.sync⟩

/-- A suspending asynchronous task with the given id. -/
def wSuspend (i : Nat) : Task := ⟨i, 100, 100, false, false, false, true, RunKind.async⟩

/-- A preempt task with the given id. -/
def wPreempt (i : Nat) : Task := ⟨i, 100, 100, true, false, false, false, RunKind.sync⟩

/-- A persistent zero-delay synchronous task. -/
def wPersist : Task := ⟨1, 100, 100, false, true, false, false, RunKind.sync⟩

/-- Merged options of a plain preempt `queueTask` call. -/
def preemptOpts : Options := ⟨0, true, false, false, false⟩

/-- Merged options of a plain non-preempt zero-delay `queueTask` call. -/
def plainOpts : Options := ⟨0, false, false, false, false⟩

/-! ## Claim theorems -/

/-- C4: `moveDelayedToProcessing` migrates exactly the maximal contiguous due
prefix of the delayed list (tasks with `queueTime <= now`) into the
processing list, appended in list order; a delayed task sitting behind a
not-yet-due task is never promoted, even if it is itself due. -/
theorem c4_delayed_promotion (s : QState) :
    (moveDelayedToProcessing s).processing =
      s.processing ++ s.delayed.takeWhile (fun t => t.queueTime ≤ s.timeNow) ∧
    (moveDelayedToProcessing s).delayed =
      s.delayed.dropWhile (fun t => t.queueTime ≤ s.timeNow) ∧
    (moveDelayedToProcessing s).pending = s.pending ∧
    (∀ l1 u l2, s.delayed = l1 ++ u :: l2 → ¬u.queueTime ≤ s.timeNow →
      ∀ v ∈ u :: l2, v ∈ (moveDelayedToProcessing s).delayed) := by
  refine ⟨by simp [moveDelayedToProcessing_eq], by simp [moveDelayedToProcessing_eq],
    by simp [moveDelayedToProcessing_eq], ?_⟩
  intro l1 u l2 hdel hu v hv
  have hud : (fun t => decide (t.queueTime ≤ s.timeNow)) u = false := by simp [hu]
  simp only [moveDelayedToProcessing_eq, hdel]
  exact mem_dropWhile_of_stuck _ l1 u l2 hud v hv

/-- C4 witness: with `now = 100`, delayed = [late (queueTime 200), early
(queueTime 100)], the due task behind the late one is not promoted. -/
theorem c4_witness :
    (moveDelayedToProcessing
        { emptyQ with delayed := [wDelayed 1 200, wDelayed 2 100] }).processing = [] ∧
    wDelayed 2 100 ∈
      (moveDelayedToProcessing
        { emptyQ with delayed := [wDelayed 1 200, wDelayed 2 100] }).delayed := by
  constructor
  · have h := (c4_delayed_promotion { emptyQ with delayed := [wDelayed 1 200, wDelayed 2 100] }).1
    rw [h]
    decide
  · exact (c4_delayed_promotion
      { emptyQ with delayed := [wDelayed 1 200, wDelayed 2 100] }).2.2.2
      [] (wDelayed 1 200) [wDelayed 2 100] rfl (by decide) (wDelayed 2 100) (by decide)

/-- C5: `queueTask` fails exactly when the merged options combine
`preempt` with a positive delay, `preempt` with `persistent`, or
`persistent` on the priority-0 (microtask) tier; on failure the queue state
is entirely unchanged. -/
theorem c5_validation (s : QState) (opts : Options) (kind : RunKind) :
    ((∃ e, (queueTask s opts kind).2 = Except.error e) ↔
      (opts.preempt = true ∧ 0 < opts.delay) ∨
        (opts.preempt = true ∧ opts.persistent = true) ∨
          (opts.persistent = true ∧ s.priority = 0)) ∧
    (∀ e, (queueTask s opts kind).2 = Except.error e → (queueTask s opts kind).1 = s) := by
  by_cases hc1 : (opts.preempt && decide (0 < opts.delay)) = true
  · obtain ⟨hp, hd⟩ : opts.preempt = true ∧ 0 < opts.delay := by simpa using hc1
    constructor
    · exact iff_of_true ⟨_, by unfold queueTask; rw [if_pos hc1]⟩ (Or.inl ⟨hp, hd⟩)
    · intro e _
      unfold queueTask
      rw [if_pos hc1]
  · by_cases hc2 : (opts.preempt && opts.persistent) = true
    · obtain ⟨hp, hq⟩ : opts.preempt = true ∧ opts.persistent = true := by simpa using hc2
      constructor
      · exact iff_of_true ⟨_, by unfold queueTask; rw [if_neg hc1, if_pos hc2]⟩
          (Or.inr (Or.inl ⟨hp, hq⟩))
      · intro e _
        unfold queueTask
        rw [if_neg hc1, if_pos hc2]
    · by_cases hc3 : (opts.persistent && s.priority == 0) = true
      · obtain ⟨hq, hz⟩ : opts.persistent = true ∧ s.priority = 0 := by simpa using hc3
        constructor
        · exact iff_of_true ⟨_, by unfold queueTask; rw [if_neg hc1, if_neg hc2, if_pos hc3]⟩
            (Or.inr (Or.inr ⟨hq, hz⟩))
        · intro e _
          unfold queueTask
          rw [if_neg hc1, if_neg hc2, if_pos hc3]
      · have hb1 : (opts.preempt && decide (0 < opts.delay)) = false := by
          revert hc1
          cases opts.preempt && decide (0 < opts.delay) <;> simp
        have hb2 : (opts.preempt && opts.persistent) = false := by
          revert hc2
          cases opts.preempt && opts.persistent <;> simp
        have hb3 : (opts.persistent && s.priority == 0) = false := by
          revert hc3
          cases opts.persistent && s.priority == 0 <;> simp
        obtain ⟨task, hok, -⟩ := queueTask_ok s opts kind hb1 hb2 hb3
        refine ⟨iff_of_false ?_ ?_, ?_⟩
        · rintro ⟨e, he⟩
          rw [hok] at he
          exact Except.noConfusion he
        · rintro (⟨h1, h2⟩ | ⟨h1, h2⟩ | ⟨h1, h2⟩)
          · rw [h1] at hb1
            simp [h2] at hb1
          · rw [h1, h2] at hb2
            simp at hb2
          · rw [h1, h2] at hb3
            simp at hb3
        · intro e he
          rw [hok] at he
          exact Except.noConfusion he

/-- C5 witness: queueing a persistent task on the microtask queue fails and
leaves the state unchanged; the three-way condition is exercised concretely. -/
theorem c5_witness :
    (∃ e, (queueTask emptyMicroQ ⟨0, false, true, false, false⟩ RunKind.sync).2 =
      Except.error e) ∧
    (∀ e, (queueTask emptyMicroQ ⟨0, false, true, false, false⟩ RunKind.sync).2 =
      Except.error e →
      (queueTask emptyMicroQ ⟨0, false, true, false, false⟩ RunKind.sync).1 = emptyMicroQ) := by
  constructor
  · exact (c5_validation emptyMicroQ ⟨0, false, true, false, false⟩ RunKind.sync).1.2
      (Or.inr (Or.inr ⟨rfl, by decide⟩))
  · exact (c5_validation emptyMicroQ ⟨0, false, true, false, false⟩ RunKind.sync).2

/-- C6 counterexample: `remove` on a preempt task that is in none of the
three lists does not throw (the fast path unlinks blindly), refuting the
claim that `remove` fails whenever the task is absent, regardless of the
`preempt` flag. -/
theorem c6_counterexample :
    (remove emptyQ (wPreempt 7)).2 = Except.ok () ∧
    emptyQ.processing = [] ∧ emptyQ.pending = [] ∧ emptyQ.delayed = [] := by
  refine ⟨rfl, rfl, rfl, rfl⟩

/-- C6 (amended): `remove` detaches the task from the list selected by its
fast-path hints (processing for `preempt`, delayed for a future `queueTime`
— in both cases without verifying presence and without throwing) or,
otherwise, from the first of the three lists the scan finds it in, leaving
the other two lists unchanged; it throws exactly when the task is
non-preempt, has `queueTime <= now`, and is found in none of the three
lists. -/
theorem c6_amended (s : QState) (t : Task) :
    ((∃ e, (remove s t).2 = Except.error e) ↔
      (t.preempt = false ∧ ¬t.queueTime > s.timeNow ∧
        s.processing.any (fun u => u.id == t.id) = false ∧
        s.pending.any (fun u => u.id == t.id) = false ∧
        s.delayed.any (fun u => u.id == t.id) = false)) ∧
    (∀ e, (remove s t).2 = Except.error e → (remove s t).1 = s) ∧
    (t.preempt = true →
      (remove s t).2 = Except.ok () ∧ (remove s t).1 = removeFromProcessing s t ∧
      (remove s t).1.pending = s.pending ∧ (remove s t).1.delayed = s.delayed) ∧
    (t.preempt = false → t.queueTime > s.timeNow →
      (remove s t).2 = Except.ok () ∧ (remove s t).1 = removeFromDelayed s t ∧
      (remove s t).1.processing = s.processing ∧ (remove s t).1.pending = s.pending) ∧
    (t.preempt = false → ¬t.queueTime > s.timeNow →
      s.processing.any (fun u => u.id == t.id) = true →
      (remove s t).2 = Except.ok () ∧ (remove s t).1 = removeFromProcessing s t ∧
      (remove s t).1.pending = s.pending ∧ (remove s t).1.delayed = s.delayed) ∧
    (t.preempt = false → ¬t.queueTime > s.timeNow →
      s.processing.any (fun u => u.id == t.id) = false →
      s.pending.any (fun u => u.id == t.id) = true →
      (remove s t).2 = Except.ok () ∧ (remove s t).1 = removeFromPending s t ∧
      (remove s t).1.processing = s.processing ∧ (remove s t).1.delayed = s.delayed) ∧
    (t.preempt = false → ¬t.queueTime > s.timeNow →
      s.processing.any (fun u => u.id == t.id) = false →
      s.pending.any (fun u => u.id == t.id) = false →
      s.delayed.any (fun u => u.id == t.id) = true →
      (remove s t).2 = Except.ok () ∧ (remove s t).1 = removeFromDelayed s t ∧
      (remove s t).1.processing = s.processing ∧ (remove s t).1.pending = s.pending) := by
  by_cases h1 : t.preempt = true
  · refine ⟨?_, ?_, ?_, ?_, ?_, ?_, ?_⟩ <;>
      simp [remove, h1, removeFromProcessing]
  · have h1f : t.preempt = false := by
      cases hp : t.preempt
      · rfl
      · exact absurd hp h1
    by_cases h2 : t.queueTime > s.timeNow
    · refine ⟨?_, ?_, ?_, ?_, ?_, ?_, ?_⟩ <;>
        simp [remove, h1f, h2, removeFromDelayed]
    · by_cases h3 : s.processing.any (fun u => u.id == t.id) = true
      · refine ⟨?_, ?_, ?_, ?_, ?_, ?_, ?_⟩ <;>
          simp [remove, h1f, h2, h3, removeFromProcessing]
      · by_cases h4 : s.pending.any (fun u => u.id == t.id) = true
        · refine ⟨?_, ?_, ?_, ?_, ?_, ?_, ?_⟩ <;>
            simp [remove, h1f, h2, h3, h4, removeFromPending]
        · by_cases h5 : s.delayed.any (fun u => u.id == t.id) = true
          · refine ⟨?_, ?_, ?_, ?_, ?_, ?_, ?_⟩ <;>
              simp [remove, h1f, h2, h3, h4, h5, removeFromDelayed]
          · refine ⟨?_, ?_, ?_, ?_, ?_, ?_, ?_⟩ <;>
              simp [remove, h1f, h2, h3, h4, h5]

/-- C6 witness: a task found in the pending list is detached from it and the
other two lists are untouched; a task absent everywhere (with due
`queueTime` and no `preempt`) makes `remove` throw. -/
theorem c6_witness :
    ((remove { emptyQ with pending := [wTask 3] } (wTask 3)).2 = Except.ok () ∧
      (remove { emptyQ with pending := [wTask 3] } (wTask 3)).1 =
        removeFromPending { emptyQ with pending := [wTask 3] } (wTask 3)) ∧
    (∃ e, (remove emptyQ (wTask 4)).2 = Except.error e) := by
  constructor
  · have h := (c6_amended { emptyQ with pending := [wTask 3] } (wTask 3)).2.2.2.2.2.1
      (by decide) (by decide) (by decide) (by decide)
    exact ⟨h.1, h.2.1⟩
  · exact ((c6_amended emptyQ (wTask 4)).1).2 (by decide)

/-- C1 counterexample: on a queue whose processing list already holds the
(unrun) task with id 0, `queueTask` with `preempt = true` puts the new task
(id 50) at the BACK of the processing list, and a subsequent flush runs task
0 first — refuting both the front insertion and the runs-before-the-N-unrun
-tasks parts of the claim. -/
theorem c1_counterexample :
    (queueTask { emptyQ with processing := [wTask 0] } preemptOpts RunKind.sync).1.processing.map
        Task.id = [0, 50] ∧
    (flush
        (queueTask { emptyQ with processing := [wTask 0] } preemptOpts
          RunKind.sync).1).runTrace = [0, 50] := by
  constructor <;> rfl

/-- C1 (amended): `queueTask` with `preempt = true` (and `delay = 0`, not
`persistent`, as validation requires) appends the new task at the BACK of
the processing list, leaving pending and delayed untouched; consequently the
preempt task runs after the tasks already in the processing list but before
every pending and due-delayed task of the subsequent flush. -/
theorem c1_amended (s : QState) (opts : Options) (kind : RunKind)
    (hpre : opts.preempt = true) (hdel : opts.delay = 0) (hper : opts.persistent = false) :
    ∃ task, (queueTask s opts kind).2 = Except.ok task ∧
      (queueTask s opts kind).1.processing = s.processing ++ [task] ∧
      (queueTask s opts kind).1.pending = s.pending ∧
      (queueTask s opts kind).1.delayed = s.delayed ∧
      (s.suspenderTask = none →
        (∀ u ∈ s.processing ++ s.pending ++
            s.delayed.takeWhile (fun v => v.queueTime ≤ s.timeNow),
          ¬(u.kind = RunKind.async ∧ u.suspend = true)) →
        ¬(kind = RunKind.async ∧ opts.suspend = true) →
        (flush (queueTask s opts kind).1).runTrace =
          s.runTrace ++ (s.processing.map Task.id ++ [task.id]) ++ s.pending.map Task.id ++
            (s.delayed.takeWhile (fun v => v.queueTime ≤ s.timeNow)).map Task.id) := by
  have hb1 : (opts.preempt && decide (0 < opts.delay)) = false := by simp [hdel]
  have hb2 : (opts.preempt && opts.persistent) = false := by simp [hper]
  have hb3 : (opts.persistent && s.priority == 0) = false := by simp [hper]
  obtain ⟨task, hok, htp, htq, hts, htk, htqt, htc, hrt, hsu, htn, hpr, hpa, hyp, hry,
    hproc, hpen, hdell, -⟩ := queueTask_ok s opts kind hb1 hb2 hb3
  rw [hpre] at hproc
  simp only [if_true] at hproc
  have hpen' : (queueTask s opts kind).1.pending = s.pending := by
    rw [hpen, if_neg]
    rintro ⟨h, -⟩
    rw [hpre] at h
    cases h
  have hdel' : (queueTask s opts kind).1.delayed = s.delayed := by
    rw [hdell, if_neg]
    rintro ⟨h, -⟩
    rw [hpre] at h
    cases h
  refine ⟨task, hok, hproc, hpen', hdel', ?_⟩
  intro hnone hns hkn
  have htrace := flush_trace (queueTask s opts kind).1 (by rw [hsu, hnone]) ?_
  · rw [htrace, hproc, hpen', hdel', hrt, htn]
    simp
  · rw [hproc, hpen', hdel', htn]
    intro u hu
    rcases List.mem_append.1 hu with hu1 | hu2
    · rcases List.mem_append.1 hu1 with hu3 | hu4
      · rcases List.mem_append.1 hu3 with hu5 | hu6
        · exact hns u (List.mem_append.2 (Or.inl (List.mem_append.2 (Or.inl hu5))))
        · have : u = task := List.mem_singleton.1 hu6
          subst this
          rintro ⟨hk, hsus⟩
          rw [htk] at hk
          rw [hts] at hsus
          exact hkn ⟨hk, hsus⟩
      · exact hns u (List.mem_append.2 (Or.inl (List.mem_append.2 (Or.inr hu4))))
    · exact hns u (List.mem_append.2 (Or.inr hu2))

/-- C1 amended witness: queue a preempt task onto a queue with one
processing and one pending task; the preempt task lands at the processing
tail and the flush runs processing task 0, then the preempt task 50, then
pending task 1. -/
theorem c1_amended_witness :
    ∃ task,
      (queueTask { emptyQ with processing := [wTask 0], pending := [wTask 1] } preemptOpts
          RunKind.sync).2 = Except.ok task ∧
      (queueTask { emptyQ with processing := [wTask 0], pending := [wTask 1] } preemptOpts
          RunKind.sync).1.processing = [wTask 0] ++ [task] ∧
      (flush
          (queueTask { emptyQ with processing := [wTask 0], pending := [wTask 1] } preemptOpts
            RunKind.sync).1).runTrace = [] ++ ([0] ++ [task.id]) ++ [1] ++ [] := by
  obtain ⟨task, h1, h2, h3, h4, h5⟩ :=
    c1_amended { emptyQ with processing := [wTask 0], pending := [wTask 1] } preemptOpts
      RunKind.sync rfl rfl rfl
  exact ⟨task, h1, h2, h5 rfl (by decide) (by decide)⟩

/-- C7: FIFO within a tier.  (i) a non-preempt zero-delay `queueTask`
appends at the pending tail; (ii) `movePendingToProcessing` splices the
whole pending list behind processing, preserving order; (iii) flush drains
head-first, so when the pending list holds A before B, A's run is recorded
before B's in the flush trace. -/
theorem c7_fifo (s : QState) (opts : Options) (kind : RunKind) (A B : Task)
    (p1 p2 p3 : List Task) :
    ((opts.preempt = false → opts.delay = 0 →
      (opts.persistent && s.priority == 0) = false →
      ∃ task, (queueTask s opts kind).2 = Except.ok task ∧
        (queueTask s opts kind).1.pending = s.pending ++ [task] ∧
        (queueTask s opts kind).1.processing = s.processing ∧
        (queueTask s opts kind).1.delayed = s.delayed)) ∧
    (movePendingToProcessing s).processing = s.processing ++ s.pending ∧
    (s.suspenderTask = none →
      (∀ u ∈ s.processing ++ s.pending ++
          s.delayed.takeWhile (fun v => v.queueTime ≤ s.timeNow),
        ¬(u.kind = RunKind.async ∧ u.suspend = true)) →
      s.pending = p1 ++ A :: (p2 ++ B :: p3) →
      A.preempt = false → B.preempt = false →
      ∃ x y z, (flush s).runTrace = x ++ A.id :: (y ++ B.id :: z)) := by
  refine ⟨?_, rfl, ?_⟩
  · intro hpre hdel hb3
    have hb1 : (opts.preempt && decide (0 < opts.delay)) = false := by simp [hpre]
    have hb2 : (opts.preempt && opts.persistent) = false := by simp [hpre]
    obtain ⟨task, hok, htp, htq, hts, htk, htqt, htc, hrt, hsu, htn, hpr, hpa, hyp, hry,
      hproc, hpen, hdell, -⟩ := queueTask_ok s opts kind hb1 hb2 hb3
    refine ⟨task, hok, ?_, ?_, ?_⟩
    · rw [hpen, if_pos ⟨hpre, hdel⟩]
    · rw [hproc, if_neg (show ¬opts.preempt = true by simp [hpre])]
    · rw [hdell, if_neg (show ¬(opts.preempt = false ∧ opts.delay ≠ 0) by
        rintro ⟨-, hne⟩
        exact hne hdel)]
  · intro hnone hns hpend hA hB
    have htrace := flush_trace s hnone hns
    refine ⟨s.runTrace ++ s.processing.map Task.id ++ p1.map Task.id,
      p2.map Task.id,
      p3.map Task.id ++
        (s.delayed.takeWhile (fun v => v.queueTime ≤ s.timeNow)).map Task.id, ?_⟩
    rw [htrace, hpend]
    simp

/-- C7 witness: a fresh task is appended at the pending tail, and for a
queue with pending = [task 1, task 2] the flush trace runs id 1 before
id 2. -/
theorem c7_witness :
    (∃ task, (queueTask emptyQ plainOpts RunKind.sync).2 = Except.ok task ∧
      (queueTask emptyQ plainOpts RunKind.sync).1.pending = [] ++ [task]) ∧
    (∃ x y z,
      (flush { emptyQ with pending := [wTask 1, wTask 2], flushRequested := true, outstanding := 1 }).runTrace = x ++ (wTask 1).id :: (y ++ (wTask 2).id :: z)) := by
  constructor
  · obtain ⟨task, h1, h2, -⟩ :=
      (c7_fifo emptyQ plainOpts RunKind.sync (wTask 1) (wTask 2) [] [] []).1 rfl rfl (by decide)
    exact ⟨task, h1, h2⟩
  · exact (c7_fifo
      { emptyQ with pending := [wTask 1, wTask 2], flushRequested := true, outstanding := 1 }
      plainOpts RunKind.sync (wTask 1) (wTask 2) [] [] []).2.2 rfl (by decide) rfl rfl rfl

/-- C3: while a suspend task's async result is unsettled no other task on
the queue runs.  Part one: when the drain reaches the first suspending async
task `t`, it records `t` as `suspenderTask`, requests a clamped re-flush and
returns at once, leaving the remaining processing tasks unrun.  Part two:
any flush that starts with `suspenderTask` set runs nothing and only
re-requests a clamped flush. -/
theorem c3_suspension (s : QState) (t : Task) (l1 l2 : List Task) :
    (s.suspenderTask = none → s.pending = [] → s.delayed = [] →
      s.processing = l1 ++ t :: l2 →
      (∀ u ∈ l1, ¬(u.kind = RunKind.async ∧ u.suspend = true)) →
      t.kind = RunKind.async → t.suspend = true →
      (flush s).suspenderTask = some t ∧
      (flush s).processing = l2 ∧
      (flush s).runTrace = s.runTrace ++ l1.map (fun u => u.id) ++ [t.id] ∧
      (s.priority ≤ 0 → (flush s).microPoke ≠ none) ∧
      (0 < s.priority → (flush s).flushRequested = true)) ∧
    (s.suspenderTask = some t →
      flush s = requestFlushClamped (flushEntry s) ∧
      (flush s).runTrace = s.runTrace ∧
      (flush s).processing = s.processing ∧
      (flush s).pending = s.pending ∧
      (flush s).delayed = s.delayed ∧
      (flush s).suspenderTask = some t ∧
      (s.priority ≤ 0 → (flush s).microPoke ≠ none) ∧
      (0 < s.priority → (flush s).flushRequested = true)) := by
  constructor
  · intro hnone hpen hdel hproc h1 ht hts
    have hm : (flushEntry s).suspenderTask = none := by simp [hnone]
    have harg : (migrate (flushEntry s)).processing = l1 ++ t :: l2 := by
      simp [hpen, hdel, hproc]
    obtain ⟨s', heq, e2, e3, e4, e5, e6⟩ :=
      drain_until_suspend l1 t l2 (migrate (flushEntry s)) h1 ht hts
    have hflush : flush s = requestFlushClamped s' := by
      unfold flush
      simp only [hm, harg, heq]
      simp
    have hpri : s'.priority = s.priority := by
      rw [e5]
      simp
    refine ⟨?_, ?_, ?_, ?_, ?_⟩
    · rw [hflush, requestFlushClamped_suspenderTask, e2]
    · rw [hflush, requestFlushClamped_processing, e3]
    · rw [hflush, requestFlushClamped_runTrace, e4]
      simp
    · intro hp
      rw [hflush, (requestFlushClamped_micro s' (by rw [hpri]; exact hp)).1]
      exact Option.noConfusion
    · intro hp
      rw [hflush, requestFlushClamped_macro s' (by rw [hpri]; omega)]
      exact requestFlush_flushRequested s'
  · intro hsome
    have hflush := flush_when_suspended s t hsome
    have hpri : (flushEntry s).priority = s.priority := by simp
    refine ⟨hflush, ?_, ?_, ?_, ?_, ?_, ?_, ?_⟩
    · rw [hflush, requestFlushClamped_runTrace]
      simp
    · rw [hflush, requestFlushClamped_processing]
      simp
    · rw [hflush, requestFlushClamped_pending]
      simp
    · rw [hflush, requestFlushClamped_delayed]
      simp
    · rw [hflush, requestFlushClamped_suspenderTask]
      simp [hsome]
    · intro hp
      rw [hflush, (requestFlushClamped_micro (flushEntry s) (by rw [hpri]; exact hp)).1]
      exact Option.noConfusion
    · intro hp
      rw [hflush, requestFlushClamped_macro (flushEntry s) (by rw [hpri]; omega)]
      exact requestFlush_flushRequested (flushEntry s)

/-- C3 witness: flushing a macrotask queue whose processing list is
[plain task 0, suspend task 9, plain task 1] stops right after the suspend
task: ids 0 and 9 run, task 1 stays in processing, the suspender is
recorded, and a re-flush is requested; a second flush in that suspended
state runs nothing. -/
theorem c3_witness :
    ((flush { emptyQ with processing := [wTask 0, wSuspend 9, wTask 1] }).suspenderTask =
        some (wSuspend 9) ∧
      (flush { emptyQ with processing := [wTask 0, wSuspend 9, wTask 1] }).processing =
        [wTask 1] ∧
      (flush { emptyQ with processing := [wTask 0, wSuspend 9, wTask 1] }).runTrace =
        [] ++ [0] ++ [9]) ∧
    ((flush { emptyQ with suspenderTask := some (wSuspend 9) }).runTrace = [] ∧
      (flush { emptyQ with suspenderTask := some (wSuspend 9) }).suspenderTask =
        some (wSuspend 9)) := by
  constructor
  · obtain ⟨a1, a2, a3, -, -⟩ :=
      (c3_suspension { emptyQ with processing := [wTask 0, wSuspend 9, wTask 1] }
        (wSuspend 9) [wTask 0] [wTask 1]).1 rfl rfl rfl rfl (by decide) rfl rfl
    exact ⟨a1, a2, a3⟩
  · obtain ⟨-, b2, -, -, -, b6, -, -⟩ :=
      (c3_suspension { emptyQ with suspenderTask := some (wSuspend 9) }
        (wSuspend 9) [] []).2 rfl
    exact ⟨b2, b6⟩

/-- C2: yield quiescence.  (1) `hasNoMoreFiniteWork` is exactly the spec's
condition (`pendingAsyncCount = 0` and every task in the three lists
persistent); (2) `yield` on an empty queue returns immediately without
touching the state; (3) a second `yield` while a promise is outstanding
returns that same promise; (4) otherwise `yield` creates exactly one fresh
promise; (5) the shared resolution step (used by `flush` and
`completeAsyncTask`) resolves the outstanding promise precisely when the
spec condition holds; (6) a flush that starts suspended resolves nothing. -/
theorem c2_yield_quiescence (s : QState) (p : Nat) :
    (hasNoMoreFiniteWork s = true ↔ specNoFiniteWork s) ∧
    (isEmpty s = true → yield s = (s, YieldResult.immediate)) ∧
    (isEmpty s = false → s.yieldPromise = some p → yield s = (s, YieldResult.wait p)) ∧
    (isEmpty s = false → s.yieldPromise = none →
      yield s =
        ({ s with yieldPromise := some s.promiseFresh, promiseFresh := s.promiseFresh + 1 },
         YieldResult.wait s.promiseFresh)) ∧
    ((checkYield s).resolvedYields = s.resolvedYields ++ [p] ↔
      (s.yieldPromise = some p ∧ specNoFiniteWork s)) ∧
    (s.yieldPromise = none ∨ ¬specNoFiniteWork s → checkYield s = s) ∧
    (∀ t, s.suspenderTask = some t → (flush s).resolvedYields = s.resolvedYields) := by
  refine ⟨hasNoMoreFiniteWork_iff s, ?_, ?_, ?_, ?_, ?_, ?_⟩
  · intro he
    simp [yield, he]
  · intro he hy
    simp [yield, he, hy]
  · intro he hy
    simp [yield, he, hy]
  · constructor
    · intro hres
      cases hy : s.yieldPromise with
      | none =>
          rw [checkYield_stuck_none s hy] at hres
          exact absurd hres (by simp)
      | some q =>
          by_cases hw : specNoFiniteWork s
          · have := checkYield_resolves s q hy hw
            rw [this] at hres
            simp only [List.append_cancel_left_eq] at hres
            have hqp : q = p := by simpa using hres
            subst hqp
            exact ⟨rfl, hw⟩

          · rw [checkYield_stuck_work s hw] at hres
            exact absurd hres (by simp)
    · rintro ⟨hy, hw⟩
      rw [checkYield_resolves s p hy hw]
  · rintro (hy | hw)
    · exact checkYield_stuck_none s hy
    · exact checkYield_stuck_work s hw
  · intro t hsome
    rw [flush_when_suspended s t hsome, requestFlushClamped_resolvedYields]
    simp

/-- C2 witness: on the empty queue `yield` returns immediately; on a queue
with one persistent pending task and an outstanding promise 5, the
resolution step fires (and two yields share promise 5); with a
non-persistent task it does not fire. -/
theorem c2_witness :
    (yield emptyQ = (emptyQ, YieldResult.immediate)) ∧
    (yield { emptyQ with pending := [wTask 1], yieldPromise := some 5 } =
      ({ emptyQ with pending := [wTask 1], yieldPromise := some 5 }, YieldResult.wait 5)) ∧
    ((checkYield { emptyQ with pending := [wPersist], yieldPromise := some 5 }).resolvedYields =
      [] ++ [5]) ∧
    (checkYield { emptyQ with pending := [wTask 1], yieldPromise := some 5 } =
      { emptyQ with pending := [wTask 1], yieldPromise := some 5 }) := by
  refine ⟨?_, ?_, ?_, ?_⟩
  · exact (c2_yield_quiescence emptyQ 0).2.1 (by decide)
  · exact (c2_yield_quiescence { emptyQ with pending := [wTask 1], yieldPromise := some 5 }
      5).2.2.1 (by decide) rfl
  · exact (c2_yield_quiescence { emptyQ with pending := [wPersist], yieldPromise := some 5 }
      5).2.2.2.2.1.2 ⟨rfl, by decide, by decide⟩
  · exact (c2_yield_quiescence { emptyQ with pending := [wTask 1], yieldPromise := some 5 }
      5).2.2.2.2.2.1 (Or.inr (by
        rintro ⟨-, hall⟩
        have := hall (wTask 1) (by decide)
        exact absurd this (by decide)))

/-- At most one host flush request is outstanding, and exactly when
`flushRequested` is set. -/
def flushReqInv (s : QState) : Prop :=
  s.outstanding = (if s.flushRequested = true then 1 else 0)

theorem flushReqInv_requestFlush (s : QState) (h : flushReqInv s) :
    flushReqInv (requestFlush s) := by
  unfold flushReqInv at *
  rw [requestFlush_outstanding, requestFlush_flushRequested]
  by_cases hf : s.flushRequested <;> simp [hf] at h ⊢ <;> omega

theorem flushReqInv_cancel (s : QState) (h : flushReqInv s) :
    flushReqInv (cancel s) := by
  unfold flushReqInv at *
  rw [cancel_outstanding, cancel_flushRequested]
  by_cases hf : s.flushRequested <;> simp [hf] at h ⊢ <;> omega

theorem flushReqInv_clamped (s : QState) (h : flushReqInv s) :
    flushReqInv (requestFlushClamped s) := by
  unfold requestFlushClamped
  by_cases hp : s.priority ≤ 0
  · simpa [flushReqInv, hp] using h
  · simp only [hp, if_false]
    exact flushReqInv_requestFlush s h

theorem flushReqInv_checkYield (s : QState) (h : flushReqInv s) :
    flushReqInv (checkYield s) := by
  unfold flushReqInv at *
  rw [checkYield_outstanding, checkYield_flushRequested]
  exact h

theorem flushReqInv_drain (l : List Task) (s : QState) (h : flushReqInv s) :
    flushReqInv (drain s l).1 := by
  induction l generalizing s with
  | nil => exact h
  | cons cur rest ih =>
      match hk : cur.kind with
      | RunKind.sync =>
          by_cases hp : cur.persistent
          · simp only [drain, hk, hp, if_true]
            apply ih
            unfold flushReqInv at h ⊢
            simpa using h
          · by_cases hr : cur.reusable
            · simp only [drain, hk, hp, hr, if_true, if_false, Bool.false_eq_true]
              apply ih
              unfold flushReqInv at h ⊢
              simpa using h
            · simp only [drain, hk, hp, hr, if_false, Bool.false_eq_true]
              apply ih
              unfold flushReqInv at h ⊢
              simpa using h
      | RunKind.async =>
          by_cases hs : cur.suspend
          · simp only [drain, hk, hs, if_true]
            apply flushReqInv_clamped
            unfold flushReqInv at h ⊢
            simpa using h
          · simp only [drain, hk, hs, if_false, Bool.false_eq_true]
            apply ih
            unfold flushReqInv at h ⊢
            simpa using h

theorem flushReqInv_migrate (s : QState) (h : flushReqInv s) :
    flushReqInv (migrate s) := by
  unfold flushReqInv at *
  simpa using h

theorem flushReqInv_finishFlush (s : QState) (h : flushReqInv s) :
    flushReqInv (finishFlush s) := by
  unfold finishFlush
  apply flushReqInv_checkYield
  split
  · exact flushReqInv_requestFlush _ (flushReqInv_migrate s h)
  · split
    · exact flushReqInv_clamped _ (flushReqInv_migrate s h)
    · exact flushReqInv_migrate s h

theorem flushReqInv_flush (s : QState) (hreq : s.flushRequested = true) (h : flushReqInv s) :
    flushReqInv (flush s) := by
  unfold flush
  have hentry : flushReqInv (flushEntry s) := by
    unfold flushReqInv at *
    simp [hreq] at h
    simp [h]
  cases hs : (flushEntry s).suspenderTask with
  | none =>
      simp only [hs]
      have hm : flushReqInv (migrate (flushEntry s)) := flushReqInv_migrate _ hentry
      have hd := flushReqInv_drain (migrate (flushEntry s)).processing _ hm
      by_cases hr2 :
          (drain (migrate (flushEntry s)) (migrate (flushEntry s)).processing).2 = true
      · rw [if_pos hr2]
        exact hd
      · rw [if_neg hr2]
        exact flushReqInv_finishFlush _ hd
  | some t =>
      simp only [hs]
      exact flushReqInv_clamped _ hentry

theorem flushReqInv_queueTask (s : QState) (opts : Options) (kind : RunKind)
    (h : flushReqInv s) : flushReqInv (queueTask s opts kind).1 := by
  by_cases hc1 : (opts.preempt && decide (0 < opts.delay)) = true
  · unfold queueTask
    rw [if_pos hc1]
    exact h
  · by_cases hc2 : (opts.preempt && opts.persistent) = true
    · unfold queueTask
      rw [if_neg hc1, if_pos hc2]
      exact h
    · by_cases hc3 : (opts.persistent && s.priority == 0) = true
      · unfold queueTask
        rw [if_neg hc1, if_neg hc2, if_pos hc3]
        exact h
      · have hb1 : (opts.preempt && decide (0 < opts.delay)) = false := by
          revert hc1
          cases opts.preempt && decide (0 < opts.delay) <;> simp
        have hb2 : (opts.preempt && opts.persistent) = false := by
          revert hc2
          cases opts.preempt && opts.persistent <;> simp
        have hb3 : (opts.persistent && s.priority == 0) = false := by
          revert hc3
          cases opts.persistent && s.priority == 0 <;> simp
        obtain ⟨task, -, -, -, -, -, -, -, -, -, -, -, -, -, -, -, -, -, hfr, hout, -⟩ :=
          queueTask_ok s opts kind hb1 hb2 hb3
        unfold flushReqInv at *
        rw [hfr, hout]
        by_cases hq : s.processing.length = 0 <;>
          by_cases hf : s.flushRequested <;> simp [hq, hf] at h ⊢ <;> omega

theorem flushReqInv_completeAsyncTask (s : QState) (t : Task) (h : flushReqInv s) :
    flushReqInv (completeAsyncTask s t).1 := by
  unfold completeAsyncTask
  by_cases hts : t.suspend = true
  · simp only [hts, if_true]
    cases hsu : s.suspenderTask with
    | none => exact h
    | some u =>
        by_cases hid : u.id = t.id
        · simp only [hid, if_true]
          have h1 : flushReqInv (checkYield { s with suspenderTask := none }) := by
            apply flushReqInv_checkYield
            unfold flushReqInv at h ⊢
            simpa using h
          by_cases he : isEmpty (checkYield { s with suspenderTask := none }) = true
          · simp only [he, if_true]
            exact flushReqInv_cancel _ h1
          · simp only [he, Bool.false_eq_true, if_false]
            exact h1
        · simp only [hid, if_false]
          exact h
  · simp only [hts, Bool.false_eq_true, if_false]
    have h1 : flushReqInv
        (checkYield { s with pendingAsyncCount := s.pendingAsyncCount - 1 }) := by
      apply flushReqInv_checkYield
      unfold flushReqInv at h ⊢
      simpa using h
    by_cases he :
        isEmpty (checkYield { s with pendingAsyncCount := s.pendingAsyncCount - 1 }) = true
    · simp only [he, if_true]
      exact flushReqInv_cancel _ h1
    · simp only [he, Bool.false_eq_true, if_false]
      exact h1

/-- C9: at most one host flush request is ever outstanding.
`requestFlush` calls `flushRequestor.request()` (counted by `requestCalls`)
only when `flushRequested` is false; `flushRequested` falls back to false
only at the start of `flush` and in `cancel`; and the invariant
"outstanding host requests = 1 exactly when `flushRequested`" is preserved
by every queue operation, so a second request is never issued while one is
pending. -/
theorem c9_single_flush_request (s : QState) (opts : Options) (kind : RunKind) (t : Task) :
    ((requestFlush s).requestCalls =
      s.requestCalls + (if s.flushRequested = true then 0 else 1)) ∧
    (s.flushRequested = true → (requestFlush s).requestCalls = s.requestCalls) ∧
    ((flushEntry s).flushRequested = false ∧ (cancel s).flushRequested = false) ∧
    (flushReqInv s → flushReqInv (requestFlush s)) ∧
    (flushReqInv s → flushReqInv (cancel s)) ∧
    (flushReqInv s → s.flushRequested = true → flushReqInv (flush s)) ∧
    (flushReqInv s → flushReqInv (queueTask s opts kind).1) ∧
    (flushReqInv s → flushReqInv (completeAsyncTask s t).1) ∧
    (flushReqInv s → s.outstanding ≤ 1) := by
  refine ⟨requestFlush_requestCalls s, ?_, ?_, flushReqInv_requestFlush s,
    flushReqInv_cancel s, fun h hreq => flushReqInv_flush s hreq h,
    flushReqInv_queueTask s opts kind, flushReqInv_completeAsyncTask s t, ?_⟩
  · intro hf
    rw [requestFlush_requestCalls s, hf]
    simp
  · exact ⟨flushEntry_flushRequested s, cancel_flushRequested s⟩
  · intro h
    unfold flushReqInv at h
    rw [h]
    by_cases hf : s.flushRequested <;> simp [hf]

/-- C9 witness: concrete instantiation on the empty queue. -/
theorem c9_witness :
    (requestFlush emptyQ).requestCalls =
      emptyQ.requestCalls + (if emptyQ.flushRequested = true then 0 else 1) ∧
    (flushEntry emptyQ).flushRequested = false ∧
    flushReqInv (requestFlush emptyQ) ∧
    emptyQ.outstanding ≤ 1 := by
  obtain ⟨a1, -, ⟨b1, -⟩, a4, -, -, -, -, a9⟩ :=
    c9_single_flush_request emptyQ plainOpts RunKind.sync (wTask 0)
  have hinv : flushReqInv emptyQ := by
    simp [flushReqInv, emptyQ]
  exact ⟨a1, b1, a4 hinv, a9 hinv⟩

/-- The ids of the not-yet-canceled poke tasks this queue has placed on the
macrotask queue. -/
def livePokes (s : QState) : List Nat :=
  (s.macroPokes.filter (fun p => !p.canceled)).map Poke.id

/-- At most one live poke exists and it is the tracked
`microTaskRequestFlushTask`. -/
def pokeInv (s : QState) : Prop :=
  livePokes s = [] ∨ ∃ i, s.microPoke = some i ∧ livePokes s = [i]

theorem livePokes_mark (l : List Poke) (i : Nat) :
    ((l.map (fun p => if p.id = i then { p with canceled := true } else p)).filter
        (fun p => !p.canceled)).map Poke.id =
      ((l.filter (fun p => !p.canceled)).map Poke.id).filter (fun j => j ≠ i) := by
  induction l with
  | nil => rfl
  | cons q l' ih =>
      by_cases hq : q.id = i
      · by_cases hc : q.canceled <;> simp [hq, hc, ih]
      · by_cases hc : q.canceled <;> simp [hq, hc, ih]

theorem livePokes_cancelMicroPoke (s : QState) (h : pokeInv s) :
    livePokes (cancelMicroPoke s) = [] ∧ (cancelMicroPoke s).microPoke = none := by
  cases hm : s.microPoke with
  | none =>
      refine ⟨?_, by simp⟩
      rcases h with h | ⟨i, hi, -⟩
      · simpa [cancelMicroPoke, hm] using h
      · rw [hm] at hi
        cases hi
  | some i =>
      refine ⟨?_, by simp⟩
      have hmark : livePokes (cancelMicroPoke s) = (livePokes s).filter (fun j => j ≠ i) := by
        simp only [cancelMicroPoke, hm, livePokes]
        exact livePokes_mark s.macroPokes i
      rcases h with h | ⟨i', hi', hl⟩
      · rw [hmark, h]
        rfl
      · rw [hm] at hi'
        have : i' = i := by
          cases hi'
          rfl
        subst this
        rw [hmark, hl]
        simp

/-- `livePokes` only looks at `macroPokes`. -/
theorem livePokes_congr (s s' : QState) (h : s.macroPokes = s'.macroPokes) :
    livePokes s = livePokes s' := by
  simp [livePokes, h]

theorem pokeInv_clamped_of_clear (s : QState) (h : livePokes s = []) :
    pokeInv (requestFlushClamped s) := by
  unfold requestFlushClamped
  by_cases hp : s.priority ≤ 0
  · rw [if_pos hp]
    right
    refine ⟨s.pokeFresh, rfl, ?_⟩
    simp only [livePokes, List.filter_append, List.map_append]
    rw [show (s.macroPokes.filter (fun p => !p.canceled)).map Poke.id = livePokes s from rfl, h]
    rfl
  · rw [if_neg hp]
    left
    rw [livePokes_congr (requestFlush s) (cancelMicroPoke s) (requestFlush_macroPokes s)]
    have hmark := livePokes_mark s.macroPokes
    cases hm : s.microPoke with
    | none =>
        rw [livePokes_congr (cancelMicroPoke s) s (by simp [cancelMicroPoke, hm])]
        exact h
    | some i =>
        have : livePokes (cancelMicroPoke s) = (livePokes s).filter (fun j => j ≠ i) := by
          simp only [cancelMicroPoke, hm, livePokes]
          exact livePokes_mark s.macroPokes i
        rw [this, h]
        rfl

theorem drain_pokes (l : List Task) (s : QState)
    (h1 : livePokes s = []) (h2 : s.microPoke = none) :
    ((drain s l).2 = false →
      livePokes (drain s l).1 = [] ∧ (drain s l).1.microPoke = none) ∧
    ((drain s l).2 = true → pokeInv (drain s l).1) := by
  induction l generalizing s with
  | nil =>
      exact ⟨fun _ => ⟨h1, h2⟩, fun hc => by simp [drain] at hc⟩
  | cons cur rest ih =>
      match hk : cur.kind with
      | RunKind.sync =>
          by_cases hp : cur.persistent
          · simp only [drain, hk, hp, if_true]
            apply ih
            · rw [livePokes_congr _ s (by simp)]
              exact h1
            · simpa using h2
          · by_cases hr : cur.reusable
            · simp only [drain, hk, hp, hr, if_true, if_false, Bool.false_eq_true]
              apply ih
              · rw [livePokes_congr _ s (by simp)]
                exact h1
              · simpa using h2
            · simp only [drain, hk, hp, hr, if_false, Bool.false_eq_true]
              apply ih
              · rw [livePokes_congr _ s (by simp)]
                exact h1
              · simpa using h2
      | RunKind.async =>
          by_cases hs : cur.suspend
          · simp only [drain, hk, hs, if_true]
            constructor
            · intro hc
              simp at hc
            · intro _
              apply pokeInv_clamped_of_clear
              rw [livePokes_congr _ s (by simp)]
              exact h1
          · simp only [drain, hk, hs, if_false, Bool.false_eq_true]
            apply ih
            · rw [livePokes_congr _ s (by simp)]
              exact h1
            · simpa using h2

theorem pokeInv_requestFlush (s : QState) (h : pokeInv s) :
    pokeInv (requestFlush s) := by
  left
  rw [livePokes_congr (requestFlush s) (cancelMicroPoke s) (requestFlush_macroPokes s)]
  exact (livePokes_cancelMicroPoke s h).1

theorem pokeInv_cancel (s : QState) (h : pokeInv s) : pokeInv (cancel s) := by
  left
  have hmp : (cancel s).macroPokes = (cancelMicroPoke s).macroPokes := by
    unfold cancel
    by_cases hf : s.flushRequested <;> simp [hf]
  rw [livePokes_congr (cancel s) (cancelMicroPoke s) hmp]
  exact (livePokes_cancelMicroPoke s h).1

theorem pokeInv_checkYield (s : QState) (h : pokeInv s) : pokeInv (checkYield s) := by
  rcases h with h | ⟨i, hi, hl⟩
  · left
    rw [livePokes_congr _ s (by simp)]
    exact h
  · right
    refine ⟨i, ?_, ?_⟩
    · rw [checkYield_microPoke]
      exact hi
    · rw [livePokes_congr _ s (by simp)]
      exact hl

theorem pokeInv_finishFlush (s : QState) (h1 : livePokes s = []) (h2 : s.microPoke = none) :
    pokeInv (finishFlush s) := by
  unfold finishFlush
  apply pokeInv_checkYield
  have hmig1 : livePokes (migrate s) = [] := by
    rw [livePokes_congr _ s (by simp)]
    exact h1
  have hmig2 : (migrate s).microPoke = none := by
    simpa using h2
  split
  · exact pokeInv_requestFlush _ (Or.inl hmig1)
  · split
    · exact pokeInv_clamped_of_clear _ hmig1
    · exact Or.inl hmig1

theorem pokeInv_flush (s : QState) (h : pokeInv s) : pokeInv (flush s) := by
  unfold flush
  have hclear : livePokes (flushEntry s) = [] := by
    have := (livePokes_cancelMicroPoke s h).1
    rw [livePokes_congr (flushEntry s) (cancelMicroPoke s) (by simp [flushEntry])]
    exact this
  have hnone : (flushEntry s).microPoke = none := flushEntry_microPoke s
  cases hs : (flushEntry s).suspenderTask with
  | none =>
      simp only [hs]
      have hm1 : livePokes (migrate (flushEntry s)) = [] := by
        rw [livePokes_congr _ (flushEntry s) (by simp)]
        exact hclear
      have hm2 : (migrate (flushEntry s)).microPoke = none := by
        simpa using hnone
      obtain ⟨hfalse, htrue⟩ :=
        drain_pokes (migrate (flushEntry s)).processing (migrate (flushEntry s)) hm1 hm2
      by_cases hr2 :
          (drain (migrate (flushEntry s)) (migrate (flushEntry s)).processing).2 = true
      · rw [if_pos hr2]
        exact htrue hr2
      · rw [if_neg hr2]
        obtain ⟨hl, hm⟩ := hfalse (by
          cases hd2 : (drain (migrate (flushEntry s)) (migrate (flushEntry s)).processing).2
          · rfl
          · exact absurd hd2 hr2)
        exact pokeInv_finishFlush _ hl hm
  | some t =>
      simp only [hs]
      exact pokeInv_clamped_of_clear _ hclear

theorem pokeInv_queueTask (s : QState) (opts : Options) (kind : RunKind)
    (h : pokeInv s) : pokeInv (queueTask s opts kind).1 := by
  by_cases hc1 : (opts.preempt && decide (0 < opts.delay)) = true
  · unfold queueTask
    rw [if_pos hc1]
    exact h
  · by_cases hc2 : (opts.preempt && opts.persistent) = true
    · unfold queueTask
      rw [if_neg hc1, if_pos hc2]
      exact h
    · by_cases hc3 : (opts.persistent && s.priority == 0) = true
      · unfold queueTask
        rw [if_neg hc1, if_neg hc2, if_pos hc3]
        exact h
      · have hb1 : (opts.preempt && decide (0 < opts.delay)) = false := by
          revert hc1
          cases opts.preempt && decide (0 < opts.delay) <;> simp
        have hb2 : (opts.preempt && opts.persistent) = false := by
          revert hc2
          cases opts.preempt && opts.persistent <;> simp
        have hb3 : (opts.persistent && s.priority == 0) = false := by
          revert hc3
          cases opts.persistent && s.priority == 0 <;> simp
        obtain ⟨task, -, -, -, -, -, -, -, -, -, -, -, -, -, -, -, -, -, -, -, -, hmp,
          hmac⟩ := queueTask_ok s opts kind hb1 hb2 hb3
        by_cases hq : s.processing.length = 0
        · left
          rw [livePokes_congr _ (cancelMicroPoke s) (by rw [hmac, if_pos hq])]
          exact (livePokes_cancelMicroPoke s h).1
        · rcases h with h | ⟨i, hi, hl⟩
          · left
            rw [livePokes_congr _ s (by rw [hmac, if_neg hq])]
            exact h
          · right
            refine ⟨i, ?_, ?_⟩
            · rw [hmp, if_neg hq]
              exact hi
            · rw [livePokes_congr _ s (by rw [hmac, if_neg hq])]
              exact hl

theorem pokeInv_completeAsyncTask (s : QState) (t : Task) (h : pokeInv s) :
    pokeInv (completeAsyncTask s t).1 := by
  unfold completeAsyncTask
  have hcy : ∀ s' : QState, s'.macroPokes = s.macroPokes → s'.microPoke = s.microPoke →
      pokeInv (checkYield s') := by
    intro s' hmac hmp
    apply pokeInv_checkYield
    rcases h with h | ⟨i, hi, hl⟩
    · left
      rw [livePokes_congr s' s hmac]
      exact h
    · right
      exact ⟨i, by rw [hmp]; exact hi, by rw [livePokes_congr s' s hmac]; exact hl⟩
  by_cases hts : t.suspend = true
  · simp only [hts, if_true]
    cases hsu : s.suspenderTask with
    | none => exact h
    | some u =>
        by_cases hid : u.id = t.id
        · simp only [hid, if_true]
          have h1 := hcy { s with suspenderTask := none } rfl rfl
          split
          · exact pokeInv_cancel _ h1
          · exact h1
        · simp only [hid, if_false]
          exact h
  · simp only [hts, Bool.false_eq_true, if_false]
    have h1 := hcy { s with pendingAsyncCount := s.pendingAsyncCount - 1 } rfl rfl
    split
    · exact pokeInv_cancel _ h1
    · exact h1

/-- C8: the microtask-tier clamped flush request queues exactly one poke
task on the macrotask queue, with exactly the options
`{delay 0, preempt, not persistent, reusable, not suspend}` and the queue's
own `requestFlush` as callback; the poke is tracked in
`microTaskRequestFlushTask`; `flush`, `cancel` and `requestFlush` cancel the
tracked poke (and clear the tracking) rather than duplicate it; and every
queue operation preserves the invariant that at most one poke is live, that
poke being the tracked one. -/
theorem c8_poke_task (s : QState) (opts : Options) (kind : RunKind) (t : Task) :
    (microTaskRequestFlushTaskOptions =
      { delay := 0, preempt := true, persistent := false, reusable := true,
        suspend := false }) ∧
    pokeCallback = requestFlush ∧
    (s.priority ≤ 0 →
      (requestFlushClamped s).macroPokes =
        s.macroPokes ++ [⟨s.pokeFresh, microTaskRequestFlushTaskOptions, false⟩] ∧
      (requestFlushClamped s).microPoke = some s.pokeFresh) ∧
    (pokeInv s →
      livePokes (cancelMicroPoke s) = [] ∧ (cancelMicroPoke s).microPoke = none) ∧
    ((requestFlush s).microPoke = none ∧ (cancel s).microPoke = none ∧
      (flushEntry s).microPoke = none) ∧
    (pokeInv s → pokeInv (flush s)) ∧
    (pokeInv s → pokeInv (cancel s)) ∧
    (pokeInv s → pokeInv (requestFlush s)) ∧
    (pokeInv s → pokeInv (queueTask s opts kind).1) ∧
    (pokeInv s → pokeInv (completeAsyncTask s t).1) ∧
    (pokeInv s → (livePokes s).length ≤ 1) := by
  refine ⟨rfl, rfl, ?_, livePokes_cancelMicroPoke s,
    ⟨requestFlush_microPoke s, cancel_microPoke s, flushEntry_microPoke s⟩,
    pokeInv_flush s, pokeInv_cancel s, pokeInv_requestFlush s,
    pokeInv_queueTask s opts kind, pokeInv_completeAsyncTask s t, ?_⟩
  · intro hp
    exact ⟨(requestFlushClamped_micro s hp).2.2.1, (requestFlushClamped_micro s hp).1⟩
  · rintro (h | ⟨i, -, hl⟩)
    · rw [h]
      decide
    · rw [hl]
      simp

/-- C8 witness: on the empty microtask queue, a clamped request queues the
poke with the exact option record and tracks it; the invariant instantiates
concretely. -/
theorem c8_witness :
    (requestFlushClamped emptyMicroQ).macroPokes =
      [] ++ [⟨0, microTaskRequestFlushTaskOptions, false⟩] ∧
    (requestFlushClamped emptyMicroQ).microPoke = some 0 ∧
    pokeInv (flush emptyMicroQ) ∧
    (livePokes emptyMicroQ).length ≤ 1 := by
  obtain ⟨-, -, hc, -, -, hf, -, -, -, -, hlen⟩ :=
    c8_poke_task emptyMicroQ plainOpts RunKind.sync (wTask 0)
  obtain ⟨h1, h2⟩ := hc (by decide)
  exact ⟨h1, h2, hf (Or.inl rfl), hlen (Or.inl rfl)⟩

namespace Ptr

/-- C10 (code bug): the list-shape invariant — each cached size equals the
number of nodes reachable from the list's head via `next`, with the cached
tail as last node — is NOT preserved by the queue's unlink operations.
Concretely: queue A, B (delay 0, ids 0, 1) and preempt tasks P1, P2
(ids 2, 3); a flush begins and `movePendingToProcessing` splices pending
behind P2 without fixing `A.prev`; P1 runs (head unlink); P1's callback
cancels A via `remove`.  The invariant holds up to and including P1's
unlink (`wellFormed s6 = true`), `remove` reports A found, yet afterwards
`processingSize = 2` while three nodes `[P2, A, B]` are still reachable
from the processing head — the canceled A remains linked. -/
theorem c10_shape_violation :
    wellFormed s5 = true ∧ wellFormed s6 = true ∧
    (removeP s6 0).2 = true ∧
    wellFormed s7 = false ∧
    s7.processingSize = 2 ∧
    chainL s7 (s7.heap.length + 1) s7.processingHead = some [3, 0, 1] := by
  decide

end Ptr

end Sched
